import Mathlib

/-!
Verification of the answer-extraction / scoring metric of the
`model_evaluate_demo` repository.

The development shallowly embeds the two source files

  * `src/metrics/accuracy.py`  (class `AccuracyMetric`: `compute`,
    `_extract_answer`, `_normalize_answer`)
  * `src/datasets/gsm8k.py`    (`GSM8KDataset._extract_final_answer`)

as executable Lean functions on `List Char` / `String`.

Modelling conventions:

  * Python strings are `String` (a list of unicode scalar values); the
    fixed regular expressions of the source are implemented directly as
    total scanning functions with Python `re` semantics (leftmost match,
    greedy/lazy backtracking, `findall` non-overlapping, `$` matching at
    the end or before one final newline, `.` not matching a newline).
  * `str.lower()` and `re.IGNORECASE` are modelled on the ASCII range
    (all case-carrying characters appearing in the source's patterns and
    in the claims are ASCII; CJK characters and `π` have no case).
  * Python whitespace (`\s`, `str.strip`) is modelled by the six ASCII
    whitespace characters.
  * Python `float` values are modelled as exact rationals (`ℚ`); the
    numeric literals reaching `float()` in this code are short decimal /
    scientific-notation literals for which exact rational arithmetic and
    double arithmetic agree on every comparison performed by the code.
    `float`'s special forms (`inf`, `nan`, underscores, non-ASCII digits)
    are out of the modelled scope, and `round(x, 5)` is modelled as exact
    round-half-to-even at 5 decimal places (Python rounds the nearest
    double); `str(round(x, 5))`'s formatting, including its scientific
    notation below `1e-4` and the `-0.0` sign behaviour, is reproduced.
  * A caller-supplied `answer_pattern` is an arbitrary regular expression
    evaluated by the `re` engine, hence it is abstracted as a function
    `Matcher` returning either a raised exception, no usable match
    (no match, or a match without capturing groups), or the text of the
    first capturing group.  Exceptions are modelled with `Except`.

All rational values built by executable code are constructed with
`Rat.divInt` / integer arithmetic so that every definition evaluates
inside the kernel (`decide`).
-/

/-- Python `\s` / `str.strip` whitespace, restricted to the ASCII range. -/
def wsChar (c : Char) : Bool :=
  c = ' ' || c = '\t' || c = '\n' || c = '\r' || c = '\x0b' || c = '\x0c'

/-- Python `\d` on the ASCII range: the characters `'0'`-`'9'`
(codepoints 48-57). -/
def digitChar (c : Char) : Bool := 48 ≤ c.toNat && c.toNat ≤ 57

/-- The regex class `[\d\.]`. -/
def digitDotChar (c : Char) : Bool := digitChar c || c = '.'

/-- Python `str.strip()` on a list of characters. -/
def pyStripL (l : List Char) : List Char :=
  ((l.dropWhile wsChar).reverse.dropWhile wsChar).reverse

/-- Python `str.lower()` on one character (ASCII range). -/
def lowerChar (c : Char) : Char :=
  if 65 ≤ c.toNat && c.toNat ≤ 90 then Char.ofNat (c.toNat + 32) else c

/-- Python `str.lower()` (ASCII range). -/
def lowerL (l : List Char) : List Char := l.map lowerChar

/-- Python `str.split('\n')`: `"" ↦ [""]`, keeps empty pieces. -/
def splitNl : List Char → List (List Char)
  | [] => [[]]
  | c :: cs =>
    if c = '\n' then [] :: splitNl cs
    else
      match splitNl cs with
      | h :: t => (c :: h) :: t
      | [] => [[c]]

/-- Case-insensitive (ASCII) prefix test: is `pat` (given lower-case) a
prefix of `l` up to `str.lower`?  Models a literal under `re.IGNORECASE`. -/
def ciPrefixOf : List Char → List Char → Bool
  | [], _ => true
  | _ :: _, [] => false
  | p :: ps, c :: cs => p = lowerChar c && ciPrefixOf ps cs

/-- First occurrence of `needle` in `hay`: returns the part before the
occurrence and the part after it.  Models leftmost substring search. -/
def splitFirst (needle : List Char) : List Char → Option (List Char × List Char)
  | [] => if needle.isEmpty then some ([], []) else none
  | c :: cs =>
    if needle.isPrefixOf (c :: cs) then some ([], (c :: cs).drop needle.length)
    else (splitFirst needle cs).map (fun p => (c :: p.1, p.2))

/-- Python `needle in hay` (substring containment). -/
def strContains (needle hay : List Char) : Bool := (splitFirst needle hay).isSome

/-- Python `str.replace(needle, repl)` for a non-empty `needle`:
replaces every non-overlapping occurrence, scanning left to right.
Fuel-driven so that it reduces in the kernel; the wrapper supplies
enough fuel. -/
def replaceSubAux (needle repl : List Char) : ℕ → List Char → List Char
  | 0, l => l
  | _ + 1, [] => []
  | fuel + 1, c :: cs =>
    if needle.isPrefixOf (c :: cs) && !needle.isEmpty then
      repl ++ replaceSubAux needle repl fuel ((c :: cs).drop needle.length)
    else
      c :: replaceSubAux needle repl fuel cs

/-- Python `str.replace` (non-empty needle). -/
def replaceSub (needle repl l : List Char) : List Char :=
  replaceSubAux needle repl (l.length + 1) l

/-- The decimal digit character for `d ≤ 9`. -/
def digitOf (d : ℕ) : Char := Char.ofNat (48 + d)

/-- Numeric value of a list of decimal digit characters (most significant
first), as produced by Python `int`/`float` parsing. -/
def natOfDigits (l : List Char) : ℕ :=
  l.foldl (fun n c => 10 * n + (c.toNat - 48)) 0

/-- Decimal rendering of a natural number (fuel-driven; the wrapper
supplies enough fuel).  Models Python `str(int)` for non-negative ints. -/
def natStrAux : ℕ → ℕ → List Char
  | 0, _ => []
  | fuel + 1, n =>
    if n < 10 then [digitOf n]
    else natStrAux fuel (n / 10) ++ [digitOf (n % 10)]

/-- Decimal rendering of a natural number, e.g. `natStr 305 = "305"`. -/
def natStr (n : ℕ) : List Char := natStrAux (n + 1) n

/-- Python `str(int)` including the sign. -/
def intStr (n : ℤ) : List Char :=
  if n < 0 then '-' :: natStr n.natAbs else natStr n.natAbs

/-- `10 ^ k` as an integer, by structural recursion (kernel-reducible). -/
def pow10 : ℕ → ℤ
  | 0 => 1
  | k + 1 => 10 * pow10 k

/-- Python `float(s)` on the already-stripped character list: optional
sign, then `digits [. digits]` (at least one digit overall, a lone dot
fails), then an optional exponent part.  Returns the exact rational
value, or `none` when `float` raises `ValueError`.  The sign. -/
def pyFloatSign (l : List Char) : ℤ × List Char :=
  match l with
  | '+' :: r => (1, r)
  | '-' :: r => (-1, r)
  | _ => (1, l)

/-- The optional fraction part `[. digits]` and the remainder. -/
def fracOf (r1 : List Char) : List Char × List Char :=
  match r1 with
  | '.' :: r => (r.takeWhile digitChar, r.dropWhile digitChar)
  | _ => ([], r1)

/-- The optional exponent sign (`true` = negative) and the remainder. -/
def expSign (r3 : List Char) : Bool × List Char :=
  match r3 with
  | '+' :: r => (false, r)
  | '-' :: r => (true, r)
  | _ => (false, r3)

def pyFloatCore (l : List Char) : Option ℚ :=
  let sgn := (pyFloatSign l).1
  let r0 := (pyFloatSign l).2
  let ds1 := r0.takeWhile digitChar
  let r1 := r0.dropWhile digitChar
  let ds2 := (fracOf r1).1
  let r2 := (fracOf r1).2
  if ds1.isEmpty && ds2.isEmpty then none
  else
    let mant : ℤ := sgn * ((natOfDigits ds1 : ℤ) * pow10 ds2.length + (natOfDigits ds2 : ℤ))
    match r2 with
    | [] => some (Rat.divInt mant (pow10 ds2.length))
    | e :: r3 =>
      if e = 'e' || e = 'E' then
        let eds := ((expSign r3).2).takeWhile digitChar
        let r5 := ((expSign r3).2).dropWhile digitChar
        if eds.isEmpty || !r5.isEmpty then none
        else if (expSign r3).1 then
          some (Rat.divInt mant (pow10 ds2.length * pow10 (natOfDigits eds)))
        else
          some (Rat.divInt (mant * pow10 (natOfDigits eds)) (pow10 ds2.length))
      else none

/-- Python `float(s)` (which strips surrounding whitespace first). -/
def pyFloatOf (l : List Char) : Option ℚ := pyFloatCore (pyStripL l)

/-- Exact round-half-to-even of `q * 10^5` to an integer: the model of
Python `round(x, 5)` scaled by `10^5` (`round` returns multiples of
`1e-5` here; we keep the integer numerator). -/
def roundHalfEven5 (q : ℚ) : ℤ :=
  let num := q.num * 100000
  let den : ℤ := (q.den : ℤ)
  let n := Int.fdiv num den
  let rem := num - n * den
  if 2 * rem < den then n
  else if den < 2 * rem then n + 1
  else if n % 2 = 0 then n else n + 1

/-- Python `str.rstrip('0')`. -/
def stripTrailingZeros (l : List Char) : List Char :=
  (l.reverse.dropWhile (fun c => c = '0')).reverse

/-- Left-pad the decimal rendering of `k < 10^5` with zeros to width 5:
the fractional digits of `str(float)` for a 5-decimal value. -/
def pad5 (k : ℕ) : List Char :=
  List.replicate (5 - (natStr k).length) '0' ++ natStr k

/-- The numeric re-rendering of `_normalize_answer`
(`src/metrics/accuracy.py` lines 216-222) applied to the parsed value:
`str(int(num))` when `num.is_integer()`, else
`str(round(num, 5)).rstrip('0').rstrip('.')`.  `str(round(num, 5))`
produces `"-0.0"`/`"0.0"` when the rounded value is (signed) zero,
scientific notation `"ke-05"` for `0 < |value| < 1e-4`, and the plain
decimal expansion otherwise. -/
def renderFloat (q : ℚ) : List Char :=
  if q.den = 1 then intStr q.num
  else
    let m : ℤ := roundHalfEven5 q
    if m = 0 then (if q.num < 0 then ['-', '0'] else ['0'])
    else
      let sgn : List Char := if m < 0 then ['-'] else []
      let a : ℕ := m.natAbs
      if a % 100000 = 0 then sgn ++ natStr (a / 100000)
      else if a < 10 then sgn ++ [digitOf a] ++ ['e', '-', '0', '5']
      else sgn ++ natStr (a / 100000) ++ '.' :: stripTrailingZeros (pad5 (a % 100000))

/-- The characters removed by `_normalize_answer`'s first step
(`re.sub(r'[「」『』\(\)\[\]\{\}"\'""'']', '', answer)`,
`src/metrics/accuracy.py` line 195). -/
def bannedChar (c : Char) : Bool :=
  c = '「' || c = '」' || c = '『' || c = '』' ||
  c = '(' || c = ')' || c = '[' || c = ']' || c = '{' || c = '}' ||
  c = '"' || c = '\x27' || c = '“' || c = '”' || c = '‘' || c = '’'

/-- `_normalize_answer`'s bracket/quote removal (line 195). -/
def removeBanned (l : List Char) : List Char := l.filter (fun c => !bannedChar c)

/-- The chained single-character replacements of `_normalize_answer`
(lines 205-210): `×→*`, `÷→/`, `（→(`, `）→)`, `，→,`, `。→.`. -/
def symChar (c : Char) : Char :=
  if c = '×' then '*'
  else if c = '÷' then '/'
  else if c = '（' then '('
  else if c = '）' then ')'
  else if c = '，' then ','
  else if c = '。' then '.'
  else c

/-- Maximal whitespace-separated words of a character list (state-machine
form so that it is structurally recursive; `acc` is the current word,
reversed). -/
def wordsAux : List Char → List Char → List (List Char)
  | [], acc => if acc.isEmpty then [] else [acc.reverse]
  | c :: cs, acc =>
    if wsChar c then
      if acc.isEmpty then wordsAux cs [] else acc.reverse :: wordsAux cs []
    else wordsAux cs (c :: acc)

/-- The maximal whitespace-free runs of `l`, in order. -/
def words (l : List Char) : List (List Char) := wordsAux l []

/-- `re.sub(r'\s+', ' ', s).strip()` (line 201): collapse whitespace runs
to single spaces and trim — equivalently, join the whitespace-separated
words with single spaces. -/
def collapseWsL (l : List Char) : List Char := List.intercalate [' '] (words l)

/-- The sign-stripped body test of `re.match(r'^[-+]?[\d\.]+$', s)`:
a non-empty run of digits/dots after an optional sign. -/
def numCore (l : List Char) : Bool :=
  let r := match l with
    | c :: rest => if c = '+' || c = '-' then rest else l
    | [] => []
  !r.isEmpty && r.all digitDotChar

/-- In non-`MULTILINE` Python regexes, `$` also matches just before one
final trailing newline; `re.match(r'^...$', s)` therefore accepts one
trailing `'\n'`. -/
def stripFinalNl (l : List Char) : List Char :=
  if l.getLast? = some '\n' then l.dropLast else l

/-- `re.match(r'^[-+]?[\d\.]+$', s)` as a Boolean (line 213). -/
def numFullmatch (l : List Char) : Bool := numCore (stripFinalNl l)

/-- The numeric re-formatting step of `_normalize_answer`
(lines 212-224): when the string is entirely a signed digits/dots run,
reparse with `float` and re-render; a `float` failure (`except: pass`)
keeps the string. -/
def normNumeric (l : List Char) : List Char :=
  if numFullmatch l then
    match pyFloatOf l with
    | some q => renderFloat q
    | none => l
  else l

/-- `AccuracyMetric._normalize_answer` (lines 187-226) on a character
list: empty-guard, bracket/quote removal, lower-casing, whitespace
collapsing, symbol canonicalisation, numeric re-formatting. -/
def normalizeL (l : List Char) : List Char :=
  if l.isEmpty then []
  else normNumeric ((collapseWsL (lowerL (removeBanned l))).map symChar)

/-- `AccuracyMetric._normalize_answer` (lines 187-226). -/
def normalize_answer (s : String) : String := ⟨normalizeL s.data⟩

/-! ## The extraction cascade (`AccuracyMetric._extract_answer`, lines 118-185) -/

/-- The literal head of `re.search(r'\\boxed\{(.*?)\}', text)`. -/
def boxedHeadL : List Char := ['\\', 'b', 'o', 'x', 'e', 'd', '{']

/-- The lazy capture `(.*?)\}` after `\boxed{`: the characters up to the
first `}`, failing when a newline (which `.` cannot match) or the end of
the text comes first. -/
def boxedCapture : List Char → Option (List Char)
  | [] => none
  | c :: cs =>
    if c = '}' then some []
    else if c = '\n' then none
    else (boxedCapture cs).map (fun b => c :: b)

/-- `re.search(r'\\boxed\{(.*?)\}', text)` (lines 132-135): leftmost
position where `\boxed{` matches and a `}` closes it on the same line. -/
def pyBoxed : List Char → Option (List Char)
  | [] => none
  | c :: cs =>
    if boxedHeadL.isPrefixOf (c :: cs) then
      match boxedCapture ((c :: cs).drop 7) with
      | some b => some b
      | none => pyBoxed cs
    else pyBoxed cs

/-- One entry of the default pattern bank (lines 138-151): the literal
lead-in, the characters its optional/required colon class accepts,
whether the colon is required (`[:：]` vs `[:：]?`/`:?`), and whether the
terminator alternation includes `。`. -/
structure LeadPat where
  head : List Char
  colons : List Char
  colonRequired : Bool
  cjk : Bool

/-- Does the terminator `(?:\.|。|$)` (or `(?:\.|$)`) match at this
remainder?  `$` matches at the end or before one final newline. -/
def termAt (cjk : Bool) (rest : List Char) : Bool :=
  match rest with
  | [] => true
  | d :: rest2 => d = '.' || (cjk && d = '。') || (d = '\n' && rest2.isEmpty)

/-- The lazy capture `(.+?)` followed by the terminator: the shortest
non-empty newline-free prefix after which the terminator matches. -/
def lazyCap (cjk : Bool) : List Char → Option (List Char)
  | [] => none
  | c :: cs =>
    if c = '\n' then none
    else if termAt cjk cs then some [c]
    else (lazyCap cjk cs).map (fun g => c :: g)

/-- Greedy `\s*` with backtracking before the lazy capture: `wrev` is the
reversed whitespace run; first try consuming all of it, then give
characters back to the capture one at a time. -/
def wsTries (cjk : Bool) : List Char → List Char → Option (List Char)
  | [], body => lazyCap cjk body
  | c :: wrev, body =>
    match lazyCap cjk body with
    | some g => some g
    | none => wsTries cjk wrev (c :: body)

/-- `\s*(.+?)(?:\.|。|$)` starting at `rest`. -/
def tailMatch (cjk : Bool) (rest : List Char) : Option (List Char) :=
  wsTries cjk (rest.takeWhile wsChar).reverse (rest.dropWhile wsChar)

/-- The colon piece and tail of one lead-in pattern, at the position just
after its head.  A greedy optional colon tries the with-colon parse
first and backtracks to the without-colon parse. -/
def leadAttempt (p : LeadPat) (rest : List Char) : Option (List Char) :=
  if p.colonRequired then
    match rest with
    | c :: r2 => if p.colons.contains c then tailMatch p.cjk r2 else none
    | [] => none
  else
    match rest with
    | c :: r2 =>
      if p.colons.contains c then
        match tailMatch p.cjk r2 with
        | some g => some g
        | none => tailMatch p.cjk rest
      else tailMatch p.cjk rest
    | [] => tailMatch p.cjk []

/-- `re.search` of one lead-in pattern with `re.IGNORECASE`: leftmost
position where the (case-insensitive) head matches and the rest of the
pattern succeeds. -/
def leadSearch (p : LeadPat) : List Char → Option (List Char)
  | [] => none
  | c :: cs =>
    if ciPrefixOf p.head (c :: cs) then
      match leadAttempt p ((c :: cs).drop p.head.length) with
      | some g => some g
      | none => leadSearch p cs
    else leadSearch p cs

/-- The pattern bank of lines 138-151, in source order. -/
def leadPats : List LeadPat :=
  [⟨"答案是".data, [':', '：'], false, true⟩,
   ⟨"答案".data, [':', '：'], true, true⟩,
   ⟨"答案为".data, [':', '：'], false, true⟩,
   ⟨"the answer is".data, [':'], false, false⟩,
   ⟨"answer".data, [':'], false, false⟩,
   ⟨"因此答案为".data, [':'], false, true⟩,
   ⟨"所以答案是".data, [':'], false, true⟩,
   ⟨"因此答案是".data, [':'], false, true⟩,
   ⟨"所以答案为".data, [':'], false, true⟩,
   ⟨"最终答案".data, [':'], false, true⟩,
   ⟨"最终答案为".data, [':'], false, true⟩,
   ⟨"最终答案是".data, [':'], false, true⟩]

/-- Lines 153-156: try each pattern in list order, first match wins. -/
def tryLeadIns (l : List Char) : Option (List Char) :=
  leadPats.findSome? (fun p => leadSearch p l)

/-- The literal head of the code-output pattern (line 159). -/
def outHeadL : List Char := "```output".data

/-- `\s*\n([\d\.\+\-]+)` after ```` ```output ````: the whitespace run
must be non-empty and end with a newline, followed by at least one
digit/dot/sign character (greedy capture). -/
def codeOutAt (rest : List Char) : Option (List Char) :=
  let w := rest.takeWhile wsChar
  let body := rest.dropWhile wsChar
  if w.getLast? = some '\n' then
    let cap := body.takeWhile (fun c => digitChar c || c = '.' || c = '+' || c = '-')
    if cap.isEmpty then none else some cap
  else none

/-- `re.search(r'```output\s*\n([\d\.\+\-]+)', text)` (lines 159-162). -/
def codeOutSearch : List Char → Option (List Char)
  | [] => none
  | c :: cs =>
    if outHeadL.isPrefixOf (c :: cs) then
      match codeOutAt ((c :: cs).drop 9) with
      | some g => some g
      | none => codeOutSearch cs
    else codeOutSearch cs

/-- The capture class `[\d\.\+\-πpi\/\*]` of the equality pattern. -/
def eqCapChar (c : Char) : Bool :=
  digitChar c || c = '.' || c = '+' || c = '-' || c = 'π' || c = 'p' ||
  c = 'i' || c = '/' || c = '*'

/-- The terminator `(?:\s|$|\.|。|,|，)` of the equality pattern. -/
def eqTermOk (rest : List Char) : Bool :=
  match rest with
  | [] => true
  | d :: _ => wsChar d || d = '.' || d = '。' || d = ',' || d = '，'

/-- Greedy backtracking for the capture of the equality pattern: `rrev`
is the reversed maximal class run; shrink from the right until the
terminator matches (the capture must stay non-empty). -/
def eqCapBack : List Char → List Char → Option (List Char × List Char)
  | [], _ => none
  | c :: rrev, rest =>
    if eqTermOk rest then some ((c :: rrev).reverse, rest)
    else eqCapBack rrev (c :: rest)

/-- `re.findall(r'=\s*([\d\.\+\-πpi\/\*]+)(?:\s|$|\.|。|,|，)', text)`
(lines 165-168).  Since no character inside a match (after its leading
`=`) can be `=`, scanning character-by-character finds exactly the
non-overlapping `findall` matches. -/
def findEqL : List Char → List (List Char)
  | [] => []
  | c :: cs =>
    (if c = '=' then
      let body := cs.dropWhile wsChar
      match eqCapBack (body.takeWhile eqCapChar).reverse (body.drop (body.takeWhile eqCapChar).length) with
      | some capRest => [capRest.1]
      | none => []
    else []) ++ findEqL cs

/-- The optional suffix `(?:π|pi)?` of the number-token pattern. -/
def numSuffix : List Char → List Char
  | 'π' :: _ => ['π']
  | 'p' :: 'i' :: _ => ['p', 'i']
  | _ => []

/-- `re.findall(r'[-+]?[\d\.]+(?:π|pi)?', text)` (lines 171, 180),
fuel-driven (each step consumes at least one character, so the wrapper's
fuel suffices): non-overlapping leftmost matches; a sign with no
following digit/dot is not a match. -/
def numFindallAux : ℕ → List Char → List (List Char)
  | 0, _ => []
  | _ + 1, [] => []
  | fuel + 1, c :: cs =>
    if c = '+' || c = '-' then
      let run := cs.takeWhile digitDotChar
      if run.isEmpty then numFindallAux fuel cs
      else
        let rest := cs.dropWhile digitDotChar
        let sfx := numSuffix rest
        (c :: (run ++ sfx)) :: numFindallAux fuel (rest.drop sfx.length)
    else if digitDotChar c then
      let run := c :: cs.takeWhile digitDotChar
      let rest := cs.dropWhile digitDotChar
      let sfx := numSuffix rest
      (run ++ sfx) :: numFindallAux fuel (rest.drop sfx.length)
    else numFindallAux fuel cs

/-- `re.findall(r'[-+]?[\d\.]+(?:π|pi)?', text)`. -/
def numFindall (l : List Char) : List (List Char) := numFindallAux (l.length + 1) l

/-- `text.strip().split('\n')[-1].strip()` (lines 176-177). -/
def lastLineL (l : List Char) : List Char :=
  pyStripL ((splitNl (pyStripL l)).getLastD [])

/-- The pattern-bank part of `_extract_answer` (lines 131-185): boxed
expression, lead-in bank, code-output block, last equality, last number
token, last number token of the last line, last line.  (The Python
method returns `matches[-1]` of the number searches without `.strip()`.) -/
def cascade (l : List Char) : List Char :=
  match pyBoxed l with
  | some b => pyStripL b
  | none =>
    match tryLeadIns l with
    | some g => pyStripL g
    | none =>
      match codeOutSearch l with
      | some g => pyStripL g
      | none =>
        match (findEqL l).getLast? with
        | some e => pyStripL e
        | none =>
          match (numFindall l).getLast? with
          | some n => n
          | none =>
            match (numFindall (lastLineL l)).getLast? with
            | some n => n
            | none => lastLineL l

/-- The exceptions the embedding distinguishes: the `ValueError` raised
by `compute`'s length precondition (line 35), and the exceptions a
caller-supplied `answer_pattern` can raise inside the `re` engine
(`re.error` for a malformed pattern, `AttributeError` from
`matches.group(1).strip()` when group 1 did not participate). -/
inductive PyErr where
  | lengthMismatch (numPredictions numReferences : ℕ)
  | regexError
  | attributeError
deriving DecidableEq, Repr

/-- A caller-supplied `answer_pattern`, abstracted as the behaviour of
`re.search(pattern, text)` followed by `matches.group(1)`: a raised
exception, `none` when there is no match or the match has no capturing
groups (both fall through to the default cascade), or the text of the
first capturing group. -/
def Matcher : Type := String → Except PyErr (Option String)

/-- `AccuracyMetric._extract_answer` (lines 118-185): empty text returns
`""` before the pattern is consulted; a caller pattern that matches with
groups returns the trimmed first group; otherwise the default cascade
runs.  Nothing in the method catches exceptions, so a matcher error
propagates. -/
def extract_answer (text : String) (pattern : Option Matcher) : Except PyErr String :=
  if text.data.isEmpty then .ok ""
  else
    match pattern with
    | some m =>
      match m text with
      | .error e => .error e
      | .ok (some g) => .ok ⟨pyStripL g.data⟩
      | .ok none => .ok ⟨cascade text.data⟩
    | none => .ok ⟨cascade text.data⟩

/-- `pred.replace('π', 'pi').replace('pi', '3.14159')` (lines 84-85). -/
def substPi (l : List Char) : List Char :=
  replaceSub ['p', 'i'] "3.14159".data (replaceSub ['π'] ['p', 'i'] l)

/-- `abs(pred_num - ref_num) < 1e-5` by integer cross-multiplication
(denominators of `ℚ` are positive). -/
def absDiffLtEps (p q : ℚ) : Bool :=
  (p.num * (q.den : ℤ) - q.num * (p.den : ℤ)).natAbs * 100000 < p.den * q.den

/-- The per-item verdict of `compute` (lines 76-89): exact equality,
else numeric comparison of both sides after the π-substitutions (a
`float` failure on either side falls to the `except` branch), else
symmetric substring containment. -/
def isCorrect (pred ref : String) : Bool :=
  if pred = ref then true
  else
    match pyFloatOf (substPi pred.data) with
    | some p =>
      match pyFloatOf (substPi ref.data) with
      | some q => absDiffLtEps p q
      | none => strContains pred.data ref.data || strContains ref.data pred.data
    | none => strContains pred.data ref.data || strContains ref.data pred.data

/-- One entry of `details` (lines 94-101). -/
structure ItemVerdict where
  index : ℕ
  prediction : String
  extracted : String
  reference : String
  normalized_reference : String
  correct : Bool
deriving DecidableEq, Repr

/-- The dict returned by `compute` (lines 111-116). -/
structure ScoreReport where
  score : ℚ
  correct : ℕ
  total : ℕ
  details : List ItemVerdict
deriving DecidableEq, Repr

/-- The scoring loop of lines 74-104: one verdict per index over the
parallel lists (predictions, extracted predictions, references,
normalized references). -/
def buildDetails : ℕ → List String → List String → List String → List String → List ItemVerdict
  | i, p :: ps, e :: es, r :: rs, n :: ns =>
    { index := i, prediction := p, extracted := e, reference := r,
      normalized_reference := n, correct := isCorrect e n } ::
      buildDetails (i + 1) ps es rs ns
  | _, _, _, _, _ => []

/-- `AccuracyMetric.compute` (lines 19-116): the length precondition
raises first; extraction (with optional normalization) runs left to
right and the first exception aborts the call; references are
normalized; the verdicts, the count of correct ones, and
`correct / len(predictions)` (0 for empty input) form the report.  The
`debug` keyword only prints and is not modelled. -/
def compute (predictions references : List String) (pattern : Option Matcher)
    (norm : Bool) : Except PyErr ScoreReport :=
  if predictions.length ≠ references.length then
    .error (.lengthMismatch predictions.length references.length)
  else
    match predictions.mapM
        (fun p => (extract_answer p pattern).map
          (fun e => if norm then normalize_answer e else e)) with
    | .error e => .error e
    | .ok extracted =>
      let nrefs := references.map (fun r => if norm then normalize_answer r else r)
      let details := buildDetails 0 predictions extracted references nrefs
      let correct := details.countP (fun d => d.correct)
      .ok { score := if predictions.isEmpty then 0
                     else Rat.divInt (correct : ℤ) (predictions.length : ℤ),
            correct := correct, total := predictions.length, details := details }

/-! ## The dataset loader's reference extraction
(`GSM8KDataset._extract_final_answer`, `src/datasets/gsm8k.py`
lines 131-162) -/

/-- The literal `"answer is"`. -/
def ansIsL : List Char := "answer is".data

/-- `parts[1]` of `last_line.lower().split("answer is")`: the segment
between the first occurrence of the separator and the following
occurrence or the end. -/
def gsmSplitPart1 (l : List Char) : List Char :=
  match splitFirst ansIsL l with
  | some pr =>
    match splitFirst ansIsL pr.2 with
    | some pr2 => pr2.1
    | none => pr.2
  | none => []

/-- The character removals of lines 145-146: `replace('$','')`,
`replace(',','')`, `replace('\\$','')` in that order (the two-character
needle never occurs once `$` is gone). -/
def gsmClean (l : List Char) : List Char :=
  replaceSub ['\\', '$'] [] (replaceSub [','] [] (replaceSub ['$'] [] l))

/-- `\.?\d*`: the greedy optional fraction part of `-?\d+\.?\d*`. -/
def fracPart : List Char → (List Char × List Char)
  | '.' :: r => ('.' :: r.takeWhile digitChar, r.dropWhile digitChar)
  | r => ([], r)

/-- `re.findall(r'-?\d+\.?\d*', text)` (lines 149, 155), fuel-driven:
non-overlapping leftmost matches; the sign requires a following digit. -/
def numFindall2Aux : ℕ → List Char → List (List Char)
  | 0, _ => []
  | _ + 1, [] => []
  | fuel + 1, c :: cs =>
    if c = '-' then
      let ds := cs.takeWhile digitChar
      if ds.isEmpty then numFindall2Aux fuel cs
      else
        let fp := fracPart (cs.dropWhile digitChar)
        ('-' :: (ds ++ fp.1)) :: numFindall2Aux fuel fp.2
    else if digitChar c then
      let ds := c :: cs.takeWhile digitChar
      let fp := fracPart (cs.dropWhile digitChar)
      (ds ++ fp.1) :: numFindall2Aux fuel fp.2
    else numFindall2Aux fuel cs

/-- `re.findall(r'-?\d+\.?\d*', text)`. -/
def numFindall2 (l : List Char) : List (List Char) := numFindall2Aux (l.length + 1) l

/-- The `all_numbers` / original-text fallback of lines 153-159. -/
def gsmFallback (answer_text : String) : String :=
  match (numFindall2 answer_text.data).getLast? with
  | some n => ⟨n⟩
  | none => answer_text

/-- `GSM8KDataset._extract_final_answer` (lines 131-162): if the (lower
cased) last line contains `"answer is"`, strip `$`/`,` from the part
after it and return its first number; else the last number anywhere in
the text; else the original text.  The `try/except` wrapper returns the
original text on any exception; for string input the body is total, so
the embedding is the body itself.  `lines`/`last_line` of lines 135-136
are the shared `lastLineL`. -/
def extract_final_answer (answer_text : String) : String :=
  if strContains ansIsL (lowerL (lastLineL answer_text.data)) then
    match (numFindall2 (gsmClean (pyStripL (gsmSplitPart1
        (lowerL (lastLineL answer_text.data)))))).head? with
    | some n => ⟨n⟩
    | none => gsmFallback answer_text
  else gsmFallback answer_text

/-- Decidable equality for `Except` values (used to evaluate concrete
runs of the embedded code inside the kernel). -/
instance {e a : Type} [DecidableEq e] [DecidableEq a] : DecidableEq (Except e a)
  | .error x, .error y =>
    match decEq x y with
    | isTrue h => isTrue (by rw [h])
    | isFalse h => isFalse (by intro hh; injection hh; contradiction)
  | .error _, .ok _ => isFalse (fun hh => Except.noConfusion hh)
  | .ok _, .error _ => isFalse (fun hh => Except.noConfusion hh)
  | .ok x, .ok y =>
    match decEq x y with
    | isTrue h => isTrue (by rw [h])
    | isFalse h => isFalse (by intro hh; injection hh; contradiction)

/-! ## Helper lemmas -/

theorem String.data_isEmpty_false {s : String} (h : s ≠ "") : s.data.isEmpty = false := by
  cases s with
  | mk d =>
    cases d with
    | nil => exact absurd rfl h
    | cons c cs => rfl

theorem extract_answer_none_ok (t : String) : ∃ e, extract_answer t none = .ok e := by
  unfold extract_answer
  by_cases h : t.data.isEmpty
  · exact ⟨"", by simp [h]⟩
  · exact ⟨⟨cascade t.data⟩, by simp [h]⟩

/-! ## C2 -/

/-- C2: for sequences of different lengths, `compute` fails immediately
with the length-mismatch error and produces no report. -/
theorem C2_length_mismatch_fatal (predictions references : List String)
    (pattern : Option Matcher) (norm : Bool)
    (h : predictions.length ≠ references.length) :
    compute predictions references pattern norm =
      .error (.lengthMismatch predictions.length references.length) := by
  simp [compute, h]

theorem C2_length_mismatch_fatal_witness :
    compute ["a"] [] none true = .error (.lengthMismatch 1 0) :=
  C2_length_mismatch_fatal ["a"] [] none true (by decide)

/-! ## C3 -/

/-- C3 counterexample: `_extract_answer` has no exception handler, so a
caller-supplied pattern whose evaluation raises inside the regex engine
propagates out of extraction (no string is returned) and aborts the
whole `compute` call. -/
theorem C3_counterexample :
    extract_answer "hello" (some (fun _ => .error .regexError)) = .error .regexError ∧
    (extract_answer "hello" (some (fun _ => .error .regexError))).isOk = false ∧
    compute ["hello"] ["x"] (some (fun _ => .error .regexError)) true =
      .error .regexError := by
  exact ⟨rfl, rfl, rfl⟩

/-- C3 amended: with no caller-supplied pattern extraction is total — it
always returns a string and never raises; the same holds for any caller
pattern whose evaluation does not itself raise.  (A raising pattern
propagates, as the counterexample shows.) -/
theorem C3_amended_no_raise_total :
    (∀ text : String, ∃ s, extract_answer text none = .ok s) ∧
    (∀ (text : String) (m : Matcher), (∀ t, ∃ o, m t = .ok o) →
      ∃ s, extract_answer text (some m) = .ok s) := by
  constructor
  · exact extract_answer_none_ok
  · intro text m hm
    by_cases h : text.data.isEmpty
    · exact ⟨"", by simp [extract_answer, h]⟩
    · obtain ⟨o, ho⟩ := hm text
      cases o with
      | none => exact ⟨⟨cascade text.data⟩, by simp [extract_answer, h, ho]⟩
      | some g => exact ⟨⟨pyStripL g.data⟩, by simp [extract_answer, h, ho]⟩

theorem C3_amended_no_raise_total_witness :
    ∃ s, extract_answer "hello" (some (fun _ => .ok none)) = .ok s :=
  C3_amended_no_raise_total.2 "hello" (fun _ => .ok none) (fun _ => ⟨none, rfl⟩)

/-! ## C4 -/

/-- C4: the cascade runs in strict priority order on non-empty text: a
caller pattern that matches with a capturing group wins over everything
and yields the trimmed first group; with no caller pattern, a boxed
expression wins over all later stages (in particular over any trailing
"answer is" phrase), yielding its trimmed contents. -/
theorem C4_priority_order :
    (∀ (text : String) (m : Matcher) (g : String), text ≠ "" →
      m text = .ok (some g) →
      extract_answer text (some m) = .ok ⟨pyStripL g.data⟩) ∧
    (∀ (text : String) (b : List Char), text ≠ "" →
      pyBoxed text.data = some b →
      extract_answer text none = .ok ⟨pyStripL b⟩) := by
  constructor
  · intro text m g hne hm
    simp [extract_answer, String.data_isEmpty_false hne, hm]
  · intro text b hne hb
    simp [extract_answer, String.data_isEmpty_false hne, cascade, hb]

theorem C4_priority_order_witness :
    extract_answer "The \\boxed{ 42 } so the answer is 7." none = .ok "42" ∧
    extract_answer "the answer is 7." (some (fun _ => .ok (some " left "))) = .ok "left" := by
  constructor
  · rw [C4_priority_order.2 "The \\boxed{ 42 } so the answer is 7." " 42 ".data
      (by decide) (by decide)]
    decide
  · rw [C4_priority_order.1 "the answer is 7." (fun _ => .ok (some " left ")) " left "
      (by decide) rfl]
    decide

/-! ## C5 -/

/-- C5 counterexample: `compute(["I think it's about 3.14"], ["π"])`
with default options does not mark the item correct. -/
theorem C5_counterexample :
    Except.map (fun rep => rep.correct)
      (compute ["I think it\x27s about 3.14"] ["π"] none true) ≠ Except.ok 1 := by
  decide

/-- C5 amended: on this input the numeric path does run — extraction
yields "3.14", the reference normalizes to "π", and after the
substitutions both sides parse (to 3.14 and 3.14159) — but the item is
marked incorrect because |3.14 - 3.14159| = 0.00159 is not below the
1e-5 tolerance, so `correct = 0`. -/
theorem C5_numeric_path_rejects :
    compute ["I think it\x27s about 3.14"] ["π"] none true =
      .ok { score := 0, correct := 0, total := 1,
            details := [{ index := 0,
                          prediction := "I think it\x27s about 3.14",
                          extracted := "3.14", reference := "π",
                          normalized_reference := "π", correct := false }] } ∧
    pyFloatOf (substPi "3.14".data) = some (Rat.divInt 157 50) ∧
    pyFloatOf (substPi "π".data) = some (Rat.divInt 314159 100000) ∧
    ¬ (|Rat.divInt 157 50 - Rat.divInt 314159 100000| < 1 / 100000) := by
  refine ⟨by decide, by decide, by decide, ?_⟩
  rw [Rat.divInt_eq_div, Rat.divInt_eq_div, abs_sub_lt_iff]
  push_neg
  intro h
  norm_num

/-! ## C10 -/

theorem strContains_nil (l : List Char) : strContains [] l = true := by
  cases l <;> rfl

theorem isCorrect_empty_left (x : String) : isCorrect "" x = true := by
  by_cases h : ("" : String) = x
  · simp [isCorrect, h]
  · have h1 : substPi ("" : String).data = [] := rfl
    have h2 : pyFloatOf ([] : List Char) = none := rfl
    simp [isCorrect, h, h1, h2, strContains_nil]

/-- C10: an item whose extracted-and-normalized prediction is the empty
string is always marked correct: either the normalized reference is also
empty (exact match), or the numeric parse of `""` raises and the empty
string is a substring of every reference under the containment fallback;
hence `compute([""], [r])` reports `correct == 1` for every non-empty
reference. -/
theorem C10_empty_prediction_marked_correct (r : String) (h : r ≠ "") :
    Except.map (fun rep => rep.correct) (compute [""] [r] none true) = .ok 1 := by
  have hic : isCorrect "" (normalize_answer r) = true := isCorrect_empty_left _
  have key : compute [""] [r] none true =
      .ok { score := Rat.divInt (List.countP (fun d => d.correct)
              (buildDetails 0 [""] [""] [r] [normalize_answer r]) : ℤ) 1,
            correct := List.countP (fun d => d.correct)
              (buildDetails 0 [""] [""] [r] [normalize_answer r]),
            total := 1,
            details := buildDetails 0 [""] [""] [r] [normalize_answer r] } := rfl
  rw [key]
  simp [buildDetails, hic]
  rfl

theorem C10_empty_prediction_marked_correct_witness :
    Except.map (fun rep => rep.correct) (compute [""] ["some reference"] none true) = .ok 1 :=
  C10_empty_prediction_marked_correct "some reference" (by decide)

/-! ## C1 -/

theorem mapM_extract_ok (nf : Bool) (p : List String) :
    ∃ es, p.mapM (fun x => (extract_answer x none).map
        (fun e => if nf then normalize_answer e else e)) = .ok es ∧
      es.length = p.length := by
  induction p with
  | nil => exact ⟨[], rfl, rfl⟩
  | cons a as ih =>
    obtain ⟨es, hes, hlen⟩ := ih
    obtain ⟨e, he⟩ := extract_answer_none_ok a
    refine ⟨(if nf then normalize_answer e else e) :: es, ?_, by simp [hlen]⟩
    rw [List.mapM_cons, he, hes]
    rfl

theorem buildDetails_length : ∀ (i : ℕ) (ps es rs ns : List String),
    ps.length = es.length → ps.length = rs.length → ps.length = ns.length →
    (buildDetails i ps es rs ns).length = ps.length := by
  intro i ps
  induction ps generalizing i with
  | nil => intro es rs ns _ _ _; cases es <;> cases rs <;> cases ns <;> rfl
  | cons p ps ih =>
    intro es rs ns h1 h2 h3
    cases es with
    | nil => simp at h1
    | cons e es =>
      cases rs with
      | nil => simp at h2
      | cons r rs =>
        cases ns with
        | nil => simp at h3
        | cons n ns =>
          simp only [buildDetails, List.length_cons]
          rw [ih (i + 1) es rs ns (by simpa using h1) (by simpa using h2) (by simpa using h3)]

/-- C1: on equal-length inputs (with no caller pattern) `compute`
succeeds and the report is internally consistent: `total` is the number
of predictions, `correct` counts the verdicts marked correct in
`details`, `score` is `correct/total` (0 when `total` is 0), and the
score lies in `[0, 1]`. -/
theorem C1_report_consistent (predictions references : List String) (norm : Bool)
    (h : predictions.length = references.length) :
    ∃ rep, compute predictions references none norm = .ok rep ∧
      rep.total = predictions.length ∧
      rep.correct = rep.details.countP (fun d => d.correct) ∧
      rep.score = (if rep.total = 0 then 0 else (rep.correct : ℚ) / (rep.total : ℚ)) ∧
      0 ≤ rep.score ∧ rep.score ≤ 1 := by
  obtain ⟨es, hes, hlen⟩ := mapM_extract_ok norm predictions
  have hdlen : (buildDetails 0 predictions es references
      (references.map (fun r => if norm then normalize_answer r else r))).length =
      predictions.length :=
    buildDetails_length 0 predictions es references _ hlen.symm h (by simp [h])
  have hcle : (buildDetails 0 predictions es references
      (references.map (fun r => if norm then normalize_answer r else r))).countP
        (fun d => d.correct) ≤ predictions.length := by
    calc _ ≤ _ := List.countP_le_length _
    _ = _ := hdlen
  unfold compute
  rw [if_neg (by simp [h]), hes]
  refine ⟨_, rfl, rfl, rfl, ?_, ?_, ?_⟩
  · cases predictions with
    | nil => simp
    | cons p ps =>
      simp only [List.isEmpty_cons, List.length_cons, if_false, Bool.false_eq_true]
      rw [if_neg (by simp), Rat.divInt_eq_div]
      push_cast
      rfl
  · cases predictions with
    | nil => simp
    | cons p ps =>
      simp only [List.isEmpty_cons, Bool.false_eq_true, if_false]
      rw [Rat.divInt_eq_div]
      positivity
  · cases predictions with
    | nil => simp
    | cons p ps =>
      simp only [List.isEmpty_cons, Bool.false_eq_true, if_false]
      rw [Rat.divInt_eq_div]
      have hpos : (0 : ℚ) < (((p :: ps).length : ℤ) : ℚ) := by
        exact_mod_cast Nat.succ_pos ps.length
      rw [div_le_one hpos]
      have := hcle
      exact_mod_cast this

theorem C1_report_consistent_witness :
    ∃ rep, compute ["The answer is 42."] ["42"] none true = .ok rep ∧
      rep.total = (["The answer is 42."] : List String).length ∧
      rep.correct = rep.details.countP (fun d => d.correct) ∧
      rep.score = (if rep.total = 0 then 0 else (rep.correct : ℚ) / (rep.total : ℚ)) ∧
      0 ≤ rep.score ∧ rep.score ≤ 1 :=
  C1_report_consistent ["The answer is 42."] ["42"] true rfl

/-! ## C8 -/

/-- C8: when no cascade stage succeeds on a non-empty text — no caller
pattern, no boxed expression, no lead-in phrase, no output code block,
no equality match, and no number-like token in the text or in its last
line — extraction returns the (trimmed) last line verbatim. -/
theorem C8_final_fallback (t : String) (h0 : t ≠ "")
    (h1 : pyBoxed t.data = none) (h2 : tryLeadIns t.data = none)
    (h3 : codeOutSearch t.data = none) (h4 : findEqL t.data = [])
    (h5 : numFindall t.data = []) (h6 : numFindall (lastLineL t.data) = []) :
    extract_answer t none = .ok ⟨lastLineL t.data⟩ := by
  simp [extract_answer, String.data_isEmpty_false h0, cascade, h1, h2, h3, h4, h5, h6]

theorem C8_final_fallback_witness :
    extract_answer "hello entire world" none = .ok "hello entire world" := by
  rw [C8_final_fallback "hello entire world" (by decide) (by decide) (by decide)
    (by decide) (by decide) (by decide) (by decide)]
  rfl

/-! ## C9 -/

/-- C9: the loader's reference derivation follows the trailing
answer-is-X, else last-number convention: when the lower-cased last line
contains "answer is" and the part after it (trimmed, `$`/`,` stripped)
contains a number, that (first) number is returned; otherwise the last
number anywhere in the text; otherwise the original text unchanged.
(The embedded function is total, matching the `try/except` totality of
the source for string inputs.) -/
theorem C9_loader_reference_extraction (t : String) :
    (∀ n, strContains ansIsL (lowerL (lastLineL t.data)) = true →
      (numFindall2 (gsmClean (pyStripL (gsmSplitPart1
        (lowerL (lastLineL t.data)))))).head? = some n →
      extract_final_answer t = ⟨n⟩) ∧
    ((strContains ansIsL (lowerL (lastLineL t.data)) = false ∨
      (numFindall2 (gsmClean (pyStripL (gsmSplitPart1
        (lowerL (lastLineL t.data)))))).head? = none) →
      (∀ n, (numFindall2 t.data).getLast? = some n → extract_final_answer t = ⟨n⟩) ∧
      ((numFindall2 t.data).getLast? = none → extract_final_answer t = t)) := by
  refine ⟨?_, ?_⟩
  · intro n hc hh
    unfold extract_final_answer
    rw [hc, if_pos rfl, hh]
  · intro hor
    have hfall : extract_final_answer t = gsmFallback t := by
      rcases hor with hc | hh
      · unfold extract_final_answer
        rw [hc, if_neg (by decide)]
      · by_cases hc : strContains ansIsL (lowerL (lastLineL t.data)) = true
        · unfold extract_final_answer
          rw [hc, if_pos rfl, hh]
        · rw [Bool.not_eq_true] at hc
          unfold extract_final_answer
          rw [hc, if_neg (by decide)]
    constructor
    · intro n hlast
      rw [hfall]
      unfold gsmFallback
      rw [hlast]
    · intro hnone
      rw [hfall]
      unfold gsmFallback
      rw [hnone]

theorem C9_loader_reference_extraction_witness :
    extract_final_answer "Working it out.\nThe answer is $1,234." = "1234." ∧
    extract_final_answer "2 and then 42 total\nnothing final here" = "42" ∧
    extract_final_answer "no digits at all" = "no digits at all" := by
  refine ⟨?_, ?_, ?_⟩
  · rw [(C9_loader_reference_extraction "Working it out.\nThe answer is $1,234.").1
      "1234.".data (by decide) (by decide)]
  · rw [((C9_loader_reference_extraction "2 and then 42 total\nnothing final here").2
      (Or.inl (by decide))).1 "42".data (by decide)]
  · rw [((C9_loader_reference_extraction "no digits at all").2
      (Or.inl (by decide))).2 (by decide)]

/-! ## Decimal-string lemmas (for C7) -/

theorem toNat_ofNat_valid (n : ℕ) (h : n < 55296) : (Char.ofNat n).toNat = n := by
  unfold Char.ofNat
  rw [dif_pos (Or.inl h)]
  rfl

theorem digitOf_toNat (d : ℕ) (h : d < 10) : (digitOf d).toNat = 48 + d :=
  toNat_ofNat_valid (48 + d) (by omega)

theorem digitChar_iff (c : Char) : digitChar c = true ↔ 48 ≤ c.toNat ∧ c.toNat ≤ 57 := by
  simp [digitChar]

theorem digitChar_digitOf (d : ℕ) (h : d < 10) : digitChar (digitOf d) = true := by
  rw [digitChar_iff, digitOf_toNat d h]
  omega

theorem digit_ne_plus (c : Char) (h : digitChar c = true) : c ≠ '+' := by
  intro hc
  subst hc
  exact absurd h (by decide)

theorem digit_ne_minus (c : Char) (h : digitChar c = true) : c ≠ '-' := by
  intro hc
  subst hc
  exact absurd h (by decide)

theorem digit_ne_dot (c : Char) (h : digitChar c = true) : c ≠ '.' := by
  intro hc
  subst hc
  exact absurd h (by decide)

theorem digit_not_ws (c : Char) (h : digitChar c = true) : wsChar c = false := by
  cases hw : wsChar c with
  | false => rfl
  | true =>
    exfalso
    simp only [wsChar, Bool.or_eq_true, decide_eq_true_eq] at hw
    rcases hw with ((((h1 | h1) | h1) | h1) | h1) | h1 <;> subst h1 <;>
      exact absurd h (by decide)

theorem foldl_digits (b : List Char) : ∀ s : ℕ,
    b.foldl (fun n c => 10 * n + (c.toNat - 48)) s = s * 10 ^ b.length + natOfDigits b := by
  induction b with
  | nil => intro s; simp [natOfDigits]
  | cons c cs ih =>
    intro s
    show (cs.foldl _ (10 * s + (c.toNat - 48))) = _
    rw [ih (10 * s + (c.toNat - 48))]
    have : natOfDigits (c :: cs) = (c.toNat - 48) * 10 ^ cs.length + natOfDigits cs := by
      show (cs.foldl _ (10 * 0 + (c.toNat - 48))) = _
      rw [ih (10 * 0 + (c.toNat - 48))]
      ring_nf
    rw [this]
    simp [List.length_cons, pow_succ]
    ring

theorem natOfDigits_append (a b : List Char) :
    natOfDigits (a ++ b) = natOfDigits a * 10 ^ b.length + natOfDigits b := by
  show (a ++ b).foldl _ 0 = _
  rw [List.foldl_append, foldl_digits]
  rfl

theorem natOfDigits_replicate_zero (z : ℕ) :
    natOfDigits (List.replicate z '0') = 0 := by
  induction z with
  | zero => rfl
  | succ n ih =>
    show (List.replicate n '0').foldl _ (10 * 0 + ('0'.toNat - 48)) = 0
    have h0 : 10 * 0 + ('0'.toNat - 48) = 0 := by decide
    rw [h0]
    exact ih

theorem natStrAux_all_digits : ∀ (fuel n : ℕ), ∀ c ∈ natStrAux fuel n, digitChar c = true := by
  intro fuel
  induction fuel with
  | zero => intro n c hc; simp [natStrAux] at hc
  | succ f ih =>
    intro n c hc
    by_cases h : n < 10
    · simp [natStrAux, h] at hc
      subst hc
      exact digitChar_digitOf n h
    · simp [natStrAux, h] at hc
      rcases hc with hc | hc
      · exact ih (n / 10) c hc
      · subst hc
        exact digitChar_digitOf (n % 10) (Nat.mod_lt _ (by omega))

theorem natStrAux_correct : ∀ (fuel n : ℕ), n < 10 ^ fuel →
    natOfDigits (natStrAux fuel n) = n := by
  intro fuel
  induction fuel with
  | zero =>
    intro n h
    simp at h
    subst h
    rfl
  | succ f ih =>
    intro n h
    by_cases h10 : n < 10
    · rw [natStrAux, if_pos h10]
      show List.foldl _ 0 [digitOf n] = n
      simp [List.foldl, digitOf_toNat n h10]
    · rw [natStrAux, if_neg h10, natOfDigits_append]
      have hdiv : n / 10 < 10 ^ f := by
        rw [Nat.div_lt_iff_lt_mul (by norm_num)]
        calc n < 10 ^ (f + 1) := h
        _ = 10 ^ f * 10 := by ring
      rw [ih (n / 10) hdiv]
      have : natOfDigits [digitOf (n % 10)] = n % 10 := by
        show List.foldl _ 0 [digitOf (n % 10)] = n % 10
        simp [List.foldl, digitOf_toNat (n % 10) (Nat.mod_lt _ (by omega))]
      rw [this]
      simp
      omega

theorem natStr_correct (n : ℕ) : natOfDigits (natStr n) = n := by
  apply natStrAux_correct
  calc n < 10 ^ n := Nat.lt_pow_self (by norm_num) n
  _ ≤ 10 ^ (n + 1) := Nat.pow_le_pow_right (by norm_num) (by omega)

theorem natStr_all_digits (n : ℕ) : ∀ c ∈ natStr n, digitChar c = true :=
  natStrAux_all_digits (n + 1) n

theorem natStr_ne_nil (n : ℕ) : natStr n ≠ [] := by
  unfold natStr natStrAux
  by_cases h : n < 10 <;> simp [h]

theorem natStrAux_len : ∀ (fuel n k : ℕ), n < 10 ^ k → 0 < k →
    (natStrAux fuel n).length ≤ k := by
  intro fuel
  induction fuel with
  | zero => intro n k _ _; simp [natStrAux]
  | succ f ih =>
    intro n k h hk
    by_cases h10 : n < 10
    · rw [natStrAux, if_pos h10]
      simpa using hk
    · rw [natStrAux, if_neg h10]
      have hk2 : 2 ≤ k := by
        by_contra hlt
        have : k = 1 := by omega
        subst this
        simp at h
        omega
      have hdiv : n / 10 < 10 ^ (k - 1) := by
        rw [Nat.div_lt_iff_lt_mul (by norm_num)]
        calc n < 10 ^ k := h
        _ = 10 ^ (k - 1) * 10 := by
          rw [← pow_succ]
          congr 1
          omega
      have := ih (n / 10) (k - 1) hdiv (by omega)
      simp only [List.length_append, List.length_cons, List.length_nil]
      omega

theorem natStr_len_le (n k : ℕ) (h : n < 10 ^ k) (hk : 0 < k) : (natStr n).length ≤ k :=
  natStrAux_len (n + 1) n k h hk

theorem takeWhile_all_append (p : Char → Bool) (a b : List Char)
    (ha : ∀ c ∈ a, p c = true) (hb : ∀ d bs, b = d :: bs → p d = false) :
    (a ++ b).takeWhile p = a ∧ (a ++ b).dropWhile p = b := by
  induction a with
  | nil =>
    cases hbb : b with
    | nil => simp
    | cons d bs =>
      have := hb d bs hbb
      subst hbb
      simp [List.takeWhile, List.dropWhile, this]
  | cons c cs ih =>
    have hc := ha c (by simp)
    have ihh := ih (fun x hx => ha x (by simp [hx]))
    simp only [List.cons_append, List.takeWhile, List.dropWhile, hc]
    exact ⟨congrArg (fun x => c :: x) ihh.1, ihh.2⟩

theorem dropWhile_no_ws (l : List Char) (h : ∀ c ∈ l, wsChar c = false) :
    l.dropWhile wsChar = l := by
  cases l with
  | nil => rfl
  | cons c cs => simp [List.dropWhile, h c (by simp)]

theorem pyStripL_no_ws (l : List Char) (h : ∀ c ∈ l, wsChar c = false) :
    pyStripL l = l := by
  unfold pyStripL
  rw [dropWhile_no_ws l h, dropWhile_no_ws l.reverse (by simpa using h), List.reverse_reverse]

theorem pad5_spec (k : ℕ) (h : k < 100000) :
    (pad5 k).length = 5 ∧ natOfDigits (pad5 k) = k ∧ ∀ c ∈ pad5 k, digitChar c = true := by
  have hlen : (natStr k).length ≤ 5 := natStr_len_le k 5 (by norm_num at h ⊢; omega) (by norm_num)
  refine ⟨?_, ?_, ?_⟩
  · simp [pad5]
    omega
  · unfold pad5
    rw [natOfDigits_append, natOfDigits_replicate_zero, natStr_correct]
    ring
  · intro c hc
    simp only [pad5, List.mem_append, List.mem_replicate] at hc
    rcases hc with ⟨_, hc⟩ | hc
    · subst hc; decide
    · exact natStr_all_digits k c hc

theorem takeWhile_zero_mem : ∀ (l : List Char) (c : Char),
    c ∈ l.takeWhile (fun x => x = '0') → c = '0' := by
  intro l
  induction l with
  | nil => intro c h; simp [List.takeWhile] at h
  | cons d t ih =>
    intro c h
    by_cases hd : d = '0'
    · subst hd
      simp [List.takeWhile] at h
      rcases h with h | h
      · exact h
      · exact ih c h
    · simp [List.takeWhile, hd] at h

theorem stripTrailingZeros_decomp (l : List Char) :
    ∃ z, l = stripTrailingZeros l ++ List.replicate z '0' := by
  refine ⟨(l.reverse.takeWhile (fun c => c = '0')).length, ?_⟩
  conv_lhs => rw [← List.reverse_reverse l,
    ← List.takeWhile_append_dropWhile (fun c => c = '0') l.reverse]
  rw [List.reverse_append]
  unfold stripTrailingZeros
  congr 1
  have : ∀ c ∈ l.reverse.takeWhile (fun c => c = '0'), c = '0' :=
    fun c hc => takeWhile_zero_mem l.reverse c hc
  rw [List.eq_replicate_of_mem this, List.reverse_replicate, List.length_replicate]

theorem mem_stripTrailingZeros (l : List Char) (c : Char) (h : c ∈ stripTrailingZeros l) :
    c ∈ l := by
  unfold stripTrailingZeros at h
  rw [List.mem_reverse] at h
  have := (List.dropWhile_sublist (l := l.reverse) (fun c => c = '0')).mem h
  rwa [List.mem_reverse] at this

theorem pow10_eq_pow (k : ℕ) : pow10 k = (10 : ℤ) ^ k := by
  induction k with
  | zero => rfl
  | succ n ih => rw [pow10, ih, pow_succ]; ring

theorem pow10_pos (k : ℕ) : 0 < pow10 k := by
  rw [pow10_eq_pow]
  positivity

theorem pow10_ne_zero (k : ℕ) : pow10 k ≠ 0 := ne_of_gt (pow10_pos k)

theorem takeWhile_all (p : Char → Bool) (l : List Char) (h : ∀ c ∈ l, p c = true) :
    l.takeWhile p = l ∧ l.dropWhile p = [] := by
  have := takeWhile_all_append p l [] h (by intro d bs hd; cases hd)
  simpa using this

theorem pyFloatSign_digit (d : Char) (t : List Char) (hd : digitChar d = true) :
    pyFloatSign (d :: t) = (1, d :: t) := by
  unfold pyFloatSign
  split
  next r heq =>
    exfalso
    injection heq with h1 _
    rw [h1] at hd
    exact absurd hd (by decide)
  next r heq =>
    exfalso
    injection heq with h1 _
    rw [h1] at hd
    exact absurd hd (by decide)
  next => rfl

theorem fracOf_not_dot (r1 : List Char)
    (h : ∀ r, r1 ≠ '.' :: r) : fracOf r1 = ([], r1) := by
  unfold fracOf
  split
  next r2 =>
    exfalso
    exact h r2 rfl
  next => rfl

theorem pyFloatCore_int (neg : Bool) (ds : List Char) (h0 : ds ≠ [])
    (h1 : ∀ c ∈ ds, digitChar c = true) :
    pyFloatCore ((if neg then ['-'] else []) ++ ds) =
      some (Rat.divInt ((if neg then -1 else 1) * (natOfDigits ds : ℤ)) 1) := by
  obtain ⟨d, t, rfl⟩ : ∃ d t, ds = d :: t := by
    cases ds with
    | nil => exact absurd rfl h0
    | cons d t => exact ⟨d, t, rfl⟩
  have hsign : pyFloatSign ((if neg then ['-'] else []) ++ d :: t) =
      ((if neg then -1 else 1 : ℤ), d :: t) := by
    cases neg
    · simpa using pyFloatSign_digit d t (h1 d (by simp))
    · rfl
  have htake := takeWhile_all digitChar (d :: t) h1
  unfold pyFloatCore
  rw [hsign]
  simp only
  rw [htake.1, htake.2]
  have hfrac : fracOf ([] : List Char) = ([], []) := rfl
  rw [hfrac]
  simp only [List.isEmpty_nil, Bool.and_true, List.isEmpty_cons, Bool.false_and,
    Bool.false_eq_true, if_false]
  have : ((natOfDigits (d :: t) : ℤ) * pow10 (List.length ([] : List Char)) +
      (natOfDigits ([] : List Char) : ℤ)) = (natOfDigits (d :: t) : ℤ) := by
    show (natOfDigits (d :: t) : ℤ) * pow10 0 + ((0 : ℕ) : ℤ) = _
    simp [pow10]
  rw [this]
  rfl

theorem pyFloatCore_dec (neg : Bool) (I F : List Char) (hI0 : I ≠ [])
    (hI : ∀ c ∈ I, digitChar c = true) (hF : ∀ c ∈ F, digitChar c = true) :
    pyFloatCore ((if neg then ['-'] else []) ++ I ++ '.' :: F) =
      some (Rat.divInt ((if neg then -1 else 1) *
        ((natOfDigits I : ℤ) * pow10 F.length + (natOfDigits F : ℤ)))
        (pow10 F.length)) := by
  obtain ⟨d, t, rfl⟩ : ∃ d t, I = d :: t := by
    cases I with
    | nil => exact absurd rfl hI0
    | cons d t => exact ⟨d, t, rfl⟩
  have hsign : pyFloatSign ((if neg then ['-'] else []) ++ (d :: t) ++ '.' :: F) =
      ((if neg then -1 else 1 : ℤ), (d :: t) ++ '.' :: F) := by
    cases neg
    · simpa using pyFloatSign_digit d (t ++ '.' :: F) (hI d (by simp))
    · rfl
  have htake := takeWhile_all_append digitChar (d :: t) ('.' :: F) hI
    (by intro x xs hx; injection hx with hx1 _; subst hx1; decide)
  have htakeF := takeWhile_all digitChar F hF
  unfold pyFloatCore
  rw [hsign]
  simp only
  rw [htake.1, htake.2]
  have hfrac : fracOf ('.' :: F) = (F.takeWhile digitChar, F.dropWhile digitChar) := rfl
  rw [hfrac]
  simp only [htakeF.1, htakeF.2]
  simp only [List.isEmpty_cons, Bool.false_and, Bool.false_eq_true, if_false]

theorem pyFloatCore_sci (neg : Bool) (d : Char) (hd : digitChar d = true) :
    pyFloatCore ((if neg then ['-'] else []) ++ [d] ++ ['e', '-', '0', '5']) =
      some (Rat.divInt ((if neg then -1 else 1) * ((d.toNat - 48 : ℕ) : ℤ))
        (pow10 5)) := by
  have hsign : pyFloatSign ((if neg then ['-'] else []) ++ [d] ++ ['e', '-', '0', '5']) =
      ((if neg then -1 else 1 : ℤ), d :: ['e', '-', '0', '5']) := by
    cases neg
    · simpa using pyFloatSign_digit d ['e', '-', '0', '5'] hd
    · rfl
  have htake := takeWhile_all_append digitChar [d] ['e', '-', '0', '5']
    (by intro c hc; simp at hc; subst hc; exact hd)
    (by intro x xs hx; injection hx with hx1 _; subst hx1; decide)
  unfold pyFloatCore
  rw [hsign]
  simp only
  have h1 : (d :: ['e', '-', '0', '5']) = [d] ++ ['e', '-', '0', '5'] := rfl
  rw [h1, htake.1, htake.2]
  have hfrac : fracOf ['e', '-', '0', '5'] = ([], ['e', '-', '0', '5']) := by
    apply fracOf_not_dot
    intro r hr
    injection hr with hr1 _
    exact absurd hr1 (by decide)
  rw [hfrac]
  simp only [List.isEmpty_cons, Bool.and_false, Bool.false_eq_true, if_false]
  have hexp : expSign ['-', '0', '5'] = (true, ['0', '5']) := rfl
  rw [hexp]
  simp only
  have htake05 : (['0', '5'] : List Char).takeWhile digitChar = ['0', '5'] := by decide
  have hdrop05 : (['0', '5'] : List Char).dropWhile digitChar = [] := by decide
  rw [htake05, hdrop05]
  simp only [List.isEmpty_cons, Bool.false_or, List.isEmpty_nil, Bool.not_true,
    Bool.false_eq_true, if_false, if_true]
  have hval : natOfDigits [d] = d.toNat - 48 := by
    show List.foldl _ 0 [d] = _
    simp [List.foldl]
  have h05 : natOfDigits ['0', '5'] = 5 := by decide
  rw [hval, h05]
  have : ((d.toNat - 48 : ℕ) : ℤ) * pow10 (List.length ([] : List Char)) +
      (natOfDigits ([] : List Char) : ℤ) = ((d.toNat - 48 : ℕ) : ℤ) := by
    show _ * pow10 0 + ((0 : ℕ) : ℤ) = _
    simp [pow10]
  rw [this]
  have hp : pow10 (List.length ([] : List Char)) * pow10 5 = pow10 5 := by
    show pow10 0 * pow10 5 = pow10 5
    simp [pow10]
  rw [hp]
  simp

theorem pyFloatCore_int_pos (ds : List Char) (h0 : ds ≠ [])
    (h1 : ∀ c ∈ ds, digitChar c = true) :
    pyFloatCore ds = some (Rat.divInt (natOfDigits ds : ℤ) 1) := by
  have := pyFloatCore_int false ds h0 h1
  simpa using this

theorem pyFloatCore_int_neg (ds : List Char) (h0 : ds ≠ [])
    (h1 : ∀ c ∈ ds, digitChar c = true) :
    pyFloatCore ('-' :: ds) = some (Rat.divInt (-(natOfDigits ds : ℤ)) 1) := by
  have := pyFloatCore_int true ds h0 h1
  simpa using this

theorem pyFloatCore_dec_pos (I F : List Char) (hI0 : I ≠ [])
    (hI : ∀ c ∈ I, digitChar c = true) (hF : ∀ c ∈ F, digitChar c = true) :
    pyFloatCore (I ++ '.' :: F) =
      some (Rat.divInt ((natOfDigits I : ℤ) * pow10 F.length + (natOfDigits F : ℤ))
        (pow10 F.length)) := by
  have := pyFloatCore_dec false I F hI0 hI hF
  simpa using this

theorem pyFloatCore_dec_neg (I F : List Char) (hI0 : I ≠ [])
    (hI : ∀ c ∈ I, digitChar c = true) (hF : ∀ c ∈ F, digitChar c = true) :
    pyFloatCore ('-' :: (I ++ '.' :: F)) =
      some (Rat.divInt (-((natOfDigits I : ℤ) * pow10 F.length + (natOfDigits F : ℤ)))
        (pow10 F.length)) := by
  have := pyFloatCore_dec true I F hI0 hI hF
  simpa using this

theorem pyFloatCore_sci_pos (d : Char) (hd : digitChar d = true) :
    pyFloatCore (d :: ['e', '-', '0', '5']) =
      some (Rat.divInt ((d.toNat - 48 : ℕ) : ℤ) (pow10 5)) := by
  have := pyFloatCore_sci false d hd
  simpa using this

theorem pyFloatCore_sci_neg (d : Char) (hd : digitChar d = true) :
    pyFloatCore ('-' :: d :: ['e', '-', '0', '5']) =
      some (Rat.divInt (-((d.toNat - 48 : ℕ) : ℤ)) (pow10 5)) := by
  have := pyFloatCore_sci true d hd
  simpa using this

theorem intStr_chars (n : ℤ) : ∀ c ∈ intStr n, c = '-' ∨ digitChar c = true := by
  intro c hc
  unfold intStr at hc
  by_cases h : n < 0
  · rw [if_pos h] at hc
    rcases List.mem_cons.mp hc with hc | hc
    · exact Or.inl hc
    · exact Or.inr (natStr_all_digits _ c hc)
  · rw [if_neg h] at hc
    exact Or.inr (natStr_all_digits _ c hc)

theorem no_ws_of_render_chars {c : Char}
    (h : c = '-' ∨ c = '.' ∨ c = 'e' ∨ digitChar c = true) : wsChar c = false := by
  rcases h with h | h | h | h
  · subst h; decide
  · subst h; decide
  · subst h; decide
  · exact digit_not_ws c h

theorem pyFloatOf_intStr (n : ℤ) : pyFloatOf (intStr n) = some (Rat.divInt n 1) := by
  have hnws : ∀ c ∈ intStr n, wsChar c = false := by
    intro c hc
    rcases intStr_chars n c hc with h | h
    · subst h; decide
    · exact digit_not_ws c h
  unfold pyFloatOf
  rw [pyStripL_no_ws _ hnws]
  unfold intStr
  by_cases h : n < 0
  · rw [if_pos h, pyFloatCore_int_neg _ (natStr_ne_nil _) (natStr_all_digits _)]
    rw [natStr_correct]
    congr 2
    omega
  · rw [if_neg h, pyFloatCore_int_pos _ (natStr_ne_nil _) (natStr_all_digits _)]
    rw [natStr_correct]
    congr 2
    omega

theorem renderFloat_chars (q : ℚ) :
    ∀ c ∈ renderFloat q, c = '-' ∨ c = '.' ∨ c = 'e' ∨ digitChar c = true := by
  intro c hc
  unfold renderFloat at hc
  by_cases hden : q.den = 1
  · rw [if_pos hden] at hc
    rcases intStr_chars q.num c hc with h | h
    · exact Or.inl h
    · exact Or.inr (Or.inr (Or.inr h))
  · rw [if_neg hden] at hc
    simp only at hc
    by_cases hm0 : roundHalfEven5 q = 0
    · rw [if_pos hm0] at hc
      by_cases hq : q.num < 0
      · rw [if_pos hq] at hc
        rcases List.mem_cons.mp hc with hc | hc
        · exact Or.inl hc
        · have : c = '0' := by simpa using hc
          subst this
          exact Or.inr (Or.inr (Or.inr (by decide)))
      · rw [if_neg hq] at hc
        have : c = '0' := by simpa using hc
        subst this
        exact Or.inr (Or.inr (Or.inr (by decide)))
    · rw [if_neg hm0] at hc
      have hsgn : ∀ x ∈ (if roundHalfEven5 q < 0 then ['-'] else ([] : List Char)),
          x = '-' := by
        intro x hx
        by_cases hneg : roundHalfEven5 q < 0
        · rw [if_pos hneg] at hx
          simpa using hx
        · rw [if_neg hneg] at hx
          simp at hx
      by_cases hdvd : (roundHalfEven5 q).natAbs % 100000 = 0
      · rw [if_pos hdvd] at hc
        rcases List.mem_append.mp hc with hc | hc
        · exact Or.inl (hsgn c hc)
        · exact Or.inr (Or.inr (Or.inr (natStr_all_digits _ c hc)))
      · rw [if_neg hdvd] at hc
        by_cases hlt : (roundHalfEven5 q).natAbs < 10
        · rw [if_pos hlt] at hc
          rcases List.mem_append.mp hc with hc | hc
          · rcases List.mem_append.mp hc with hc | hc
            · exact Or.inl (hsgn c hc)
            · have : c = digitOf (roundHalfEven5 q).natAbs := by simpa using hc
              subst this
              exact Or.inr (Or.inr (Or.inr (digitChar_digitOf _ hlt)))
          · have : c = 'e' ∨ c = '-' ∨ c = '0' ∨ c = '5' := by simpa using hc
            rcases this with h | h | h | h
            · exact Or.inr (Or.inr (Or.inl h))
            · exact Or.inl h
            · subst h
              exact Or.inr (Or.inr (Or.inr (by decide)))
            · subst h
              exact Or.inr (Or.inr (Or.inr (by decide)))
        · rw [if_neg hlt] at hc
          rcases List.mem_append.mp hc with hc | hc
          · rcases List.mem_append.mp hc with hc | hc
            · exact Or.inl (hsgn c hc)
            · exact Or.inr (Or.inr (Or.inr (natStr_all_digits _ c hc)))
          · rcases List.mem_cons.mp hc with hc | hc
            · exact Or.inr (Or.inl hc)
            · refine Or.inr (Or.inr (Or.inr ?_))
              exact (pad5_spec _ (Nat.mod_lt _ (by norm_num))).2.2 c
                (mem_stripTrailingZeros _ c hc)

theorem pyStripL_renderFloat (q : ℚ) : pyStripL (renderFloat q) = renderFloat q :=
  pyStripL_no_ws _ (fun c hc => no_ws_of_render_chars (renderFloat_chars q c hc))

theorem pyFloatCore_intStr (n : ℤ) : pyFloatCore (intStr n) = some (Rat.divInt n 1) := by
  unfold intStr
  by_cases h : n < 0
  · rw [if_pos h, pyFloatCore_int_neg _ (natStr_ne_nil _) (natStr_all_digits _)]
    rw [natStr_correct]
    congr 2
    omega
  · rw [if_neg h, pyFloatCore_int_pos _ (natStr_ne_nil _) (natStr_all_digits _)]
    rw [natStr_correct]
    congr 2
    omega

/-! ## C7 -/

set_option maxHeartbeats 2000000 in
/-- C7: the numeric re-formatting of normalization.  `normalize("3.0")`
is `"3"` and `normalize("3.14159265")` is `"3.14159"`; in general, on a
string that is entirely a signed decimal number and parses to the value
`q`, the numeric step replaces it by the re-rendering of `q`; an
integral `q` renders as its integer string with no decimal point, and in
every case the rendered string parses back exactly to the rounded value
(`q` itself when integral, else `q` rounded half-to-even to 5 decimal
places). -/
theorem C7_numeric_reformatting :
    normalize_answer "3.0" = "3" ∧
    normalize_answer "3.14159265" = "3.14159" ∧
    ∀ (l : List Char) (q : ℚ), numFullmatch l = true → pyFloatOf l = some q →
      normNumeric l = renderFloat q ∧
      (q.den = 1 → renderFloat q = intStr q.num ∧ '.' ∉ renderFloat q) ∧
      pyFloatOf (renderFloat q) =
        some (if q.den = 1 then q else Rat.divInt (roundHalfEven5 q) 100000) := by
  refine ⟨by decide, by decide, ?_⟩
  intro l q h1 h2
  refine ⟨?_, ?_, ?_⟩
  · unfold normNumeric
    rw [if_pos h1, h2]
  · intro hden
    unfold renderFloat
    rw [if_pos hden]
    refine ⟨rfl, ?_⟩
    intro hdot
    rcases intStr_chars q.num '.' hdot with h | h
    · exact absurd h (by decide)
    · exact absurd h (by decide)
  · have hstrip : pyFloatOf (renderFloat q) = pyFloatCore (renderFloat q) := by
      rw [pyFloatOf, pyStripL_renderFloat]
    rw [hstrip]
    by_cases hden : q.den = 1
    · rw [if_pos hden]
      unfold renderFloat
      rw [if_pos hden, pyFloatCore_intStr, Rat.divInt_one,
        (Rat.den_eq_one_iff q).mp hden]
    · rw [if_neg hden]
      unfold renderFloat
      rw [if_neg hden]
      simp only
      by_cases hm0 : roundHalfEven5 q = 0
      · rw [if_pos hm0, hm0]
        by_cases hq : q.num < 0
        · rw [if_pos hq]
          decide
        · rw [if_neg hq]
          decide
      · rw [if_neg hm0]
        by_cases hdvd : (roundHalfEven5 q).natAbs % 100000 = 0
        · rw [if_pos hdvd]
          have hdl : (((roundHalfEven5 q).natAbs / 100000 : ℕ) : ℤ) * 100000 =
              ((roundHalfEven5 q).natAbs : ℤ) := by
            exact_mod_cast Nat.div_mul_cancel (Nat.dvd_of_mod_eq_zero hdvd)
          by_cases hneg : roundHalfEven5 q < 0
          · rw [if_pos hneg, List.singleton_append,
              pyFloatCore_int_neg _ (natStr_ne_nil _) (natStr_all_digits _),
              natStr_correct]
            congr 1
            rw [Rat.divInt_eq_iff one_ne_zero (by norm_num)]
            omega
          · rw [if_neg hneg, List.nil_append,
              pyFloatCore_int_pos _ (natStr_ne_nil _) (natStr_all_digits _),
              natStr_correct]
            congr 1
            rw [Rat.divInt_eq_iff one_ne_zero (by norm_num)]
            omega
        · rw [if_neg hdvd]
          by_cases hlt : (roundHalfEven5 q).natAbs < 10
          · rw [if_pos hlt]
            have h48 : (digitOf (roundHalfEven5 q).natAbs).toNat - 48 =
                (roundHalfEven5 q).natAbs := by
              rw [digitOf_toNat _ hlt]
              omega
            have hpow5 : pow10 5 = 100000 := rfl
            by_cases hneg : roundHalfEven5 q < 0
            · rw [if_pos hneg]
              show pyFloatCore ('-' :: digitOf (roundHalfEven5 q).natAbs ::
                ['e', '-', '0', '5']) = _
              rw [pyFloatCore_sci_neg _ (digitChar_digitOf _ hlt), h48, hpow5]
              congr 2
              omega
            · rw [if_neg hneg]
              show pyFloatCore (digitOf (roundHalfEven5 q).natAbs ::
                ['e', '-', '0', '5']) = _
              rw [pyFloatCore_sci_pos _ (digitChar_digitOf _ hlt), h48, hpow5]
              congr 2
              omega
          · rw [if_neg hlt]
            obtain ⟨z, hz⟩ := stripTrailingZeros_decomp
              (pad5 ((roundHalfEven5 q).natAbs % 100000))
            have hp5 := pad5_spec ((roundHalfEven5 q).natAbs % 100000)
              (Nat.mod_lt _ (by norm_num))
            have hFd : ∀ c ∈ stripTrailingZeros
                (pad5 ((roundHalfEven5 q).natAbs % 100000)), digitChar c = true :=
              fun c hcm => hp5.2.2 c (mem_stripTrailingZeros _ c hcm)
            have hlen5 : (stripTrailingZeros
                (pad5 ((roundHalfEven5 q).natAbs % 100000))).length + z = 5 := by
              have h5 := hp5.1
              rw [hz, List.length_append, List.length_replicate] at h5
              exact h5
            have hval : (natOfDigits (stripTrailingZeros
                (pad5 ((roundHalfEven5 q).natAbs % 100000))) : ℤ) * (10 : ℤ) ^ z =
                (((roundHalfEven5 q).natAbs % 100000 : ℕ) : ℤ) := by
              have h1v := hp5.2.1
              rw [hz, natOfDigits_append, natOfDigits_replicate_zero,
                List.length_replicate] at h1v
              exact_mod_cast h1v
            have hmod : ((roundHalfEven5 q).natAbs : ℤ) =
                (((roundHalfEven5 q).natAbs / 100000 : ℕ) : ℤ) * 100000 +
                (((roundHalfEven5 q).natAbs % 100000 : ℕ) : ℤ) := by
              push_cast
              omega
            have hpow : (10 : ℤ) ^ z * (10 : ℤ) ^ (stripTrailingZeros
                (pad5 ((roundHalfEven5 q).natAbs % 100000))).length = 100000 := by
              rw [← pow_add, show z + (stripTrailingZeros
                (pad5 ((roundHalfEven5 q).natAbs % 100000))).length = 5 from by omega]
              norm_num
            by_cases hneg : roundHalfEven5 q < 0
            · rw [if_pos hneg, List.singleton_append, List.cons_append,
                pyFloatCore_dec_neg _ _ (natStr_ne_nil _) (natStr_all_digits _) hFd,
                natStr_correct]
              congr 1
              rw [Rat.divInt_eq_iff (pow10_ne_zero _) (by norm_num), pow10_eq_pow]
              have hma : roundHalfEven5 q = -((roundHalfEven5 q).natAbs : ℤ) := by
                omega
              linear_combination (-((10 : ℤ) ^ (stripTrailingZeros
                  (pad5 ((roundHalfEven5 q).natAbs % 100000))).length)) * hma +
                ((10 : ℤ) ^ (stripTrailingZeros
                  (pad5 ((roundHalfEven5 q).natAbs % 100000))).length) * hmod +
                (-((10 : ℤ) ^ (stripTrailingZeros
                  (pad5 ((roundHalfEven5 q).natAbs % 100000))).length)) * hval +
                ((natOfDigits (stripTrailingZeros
                  (pad5 ((roundHalfEven5 q).natAbs % 100000))) : ℤ)) * hpow
            · rw [if_neg hneg, List.nil_append,
                pyFloatCore_dec_pos _ _ (natStr_ne_nil _) (natStr_all_digits _) hFd,
                natStr_correct]
              refine congrArg some ?_
              rw [Rat.divInt_eq_iff (pow10_ne_zero _) (by norm_num), pow10_eq_pow]
              have hma : roundHalfEven5 q = ((roundHalfEven5 q).natAbs : ℤ) := by
                omega
              linear_combination (-((10 : ℤ) ^ (stripTrailingZeros
                  (pad5 ((roundHalfEven5 q).natAbs % 100000))).length)) * hma +
                (-((10 : ℤ) ^ (stripTrailingZeros
                  (pad5 ((roundHalfEven5 q).natAbs % 100000))).length)) * hmod +
                ((10 : ℤ) ^ (stripTrailingZeros
                  (pad5 ((roundHalfEven5 q).natAbs % 100000))).length) * hval +
                (-(natOfDigits (stripTrailingZeros
                  (pad5 ((roundHalfEven5 q).natAbs % 100000))) : ℤ)) * hpow

theorem C7_numeric_reformatting_witness :
    normNumeric "2.50".data = renderFloat (Rat.divInt 5 2) ∧
    ((Rat.divInt 5 2).den = 1 → renderFloat (Rat.divInt 5 2) =
      intStr (Rat.divInt 5 2).num ∧ '.' ∉ renderFloat (Rat.divInt 5 2)) ∧
    pyFloatOf (renderFloat (Rat.divInt 5 2)) =
      some (if (Rat.divInt 5 2).den = 1 then Rat.divInt 5 2
            else Rat.divInt (roundHalfEven5 (Rat.divInt 5 2)) 100000) :=
  C7_numeric_reformatting.2.2 "2.50".data (Rat.divInt 5 2) (by decide) (by decide)

/-! ## Character-map lemmas (for C6) -/

theorem map_id_of_fix {f : Char → Char} : ∀ {l : List Char},
    (∀ c ∈ l, f c = c) → l.map f = l := by
  intro l
  induction l with
  | nil => intro _; rfl
  | cons c cs ih =>
    intro h
    simp only [List.map_cons, h c (by simp)]
    rw [ih (fun x hx => h x (by simp [hx]))]

theorem lowerChar_toNat_le (c : Char) : (lowerChar c).toNat ≤ max c.toNat 122 := by
  unfold lowerChar
  by_cases h : 65 ≤ c.toNat && c.toNat ≤ 90
  · rw [if_pos h]
    simp only [Bool.and_eq_true, decide_eq_true_eq] at h
    rw [toNat_ofNat_valid _ (by omega)]
    omega
  · rw [if_neg h]
    omega

theorem lowerChar_eq_self_of (c : Char) (h : c.toNat < 65 ∨ 90 < c.toNat) :
    lowerChar c = c := by
  unfold lowerChar
  rw [if_neg]
  simp only [Bool.and_eq_true, decide_eq_true_eq, not_and_or, not_le]
  omega

theorem lowerChar_idem (c : Char) : lowerChar (lowerChar c) = lowerChar c := by
  by_cases h : 65 ≤ c.toNat && c.toNat ≤ 90
  · have hl : lowerChar c = Char.ofNat (c.toNat + 32) := by rw [lowerChar, if_pos h]
    simp only [Bool.and_eq_true, decide_eq_true_eq] at h
    apply lowerChar_eq_self_of
    rw [hl, toNat_ofNat_valid _ (by omega)]
    omega
  · have hl : lowerChar c = c := by rw [lowerChar, if_neg h]
    rw [hl]
    exact hl

theorem symChar_eq_self_of_le (c : Char) (h : c.toNat ≤ 122) : symChar c = c := by
  have n1 : c ≠ '×' := fun he => by subst he; exact absurd h (by decide)
  have n2 : c ≠ '÷' := fun he => by subst he; exact absurd h (by decide)
  have n3 : c ≠ '（' := fun he => by subst he; exact absurd h (by decide)
  have n4 : c ≠ '）' := fun he => by subst he; exact absurd h (by decide)
  have n5 : c ≠ '，' := fun he => by subst he; exact absurd h (by decide)
  have n6 : c ≠ '。' := fun he => by subst he; exact absurd h (by decide)
  simp [symChar, n1, n2, n3, n4, n5, n6]

theorem symChar_idem (c : Char) : symChar (symChar c) = symChar c := by
  by_cases h1 : c = '×'
  · subst h1; decide
  by_cases h2 : c = '÷'
  · subst h2; decide
  by_cases h3 : c = '（'
  · subst h3; decide
  by_cases h4 : c = '）'
  · subst h4; decide
  by_cases h5 : c = '，'
  · subst h5; decide
  by_cases h6 : c = '。'
  · subst h6; decide
  have : symChar c = c := by simp [symChar, h1, h2, h3, h4, h5, h6]
  rw [this, this]

theorem lower_sym_comm (c : Char) : lowerChar (symChar c) = symChar (lowerChar c) := by
  by_cases h1 : c = '×'
  · subst h1; decide
  by_cases h2 : c = '÷'
  · subst h2; decide
  by_cases h3 : c = '（'
  · subst h3; decide
  by_cases h4 : c = '）'
  · subst h4; decide
  by_cases h5 : c = '，'
  · subst h5; decide
  by_cases h6 : c = '。'
  · subst h6; decide
  have hsym : symChar c = c := by simp [symChar, h1, h2, h3, h4, h5, h6]
  rw [hsym]
  by_cases hu : 65 ≤ c.toNat && c.toNat ≤ 90
  · have hl : lowerChar c = Char.ofNat (c.toNat + 32) := by rw [lowerChar, if_pos hu]
    simp only [Bool.and_eq_true, decide_eq_true_eq] at hu
    rw [hl, symChar_eq_self_of_le _ (by rw [toNat_ofNat_valid _ (by omega)]; omega)]
  · have hl : lowerChar c = c := by rw [lowerChar, if_neg hu]
    rw [hl, hsym]

theorem wsChar_false_of_ge (c : Char) (h : 33 ≤ c.toNat) : wsChar c = false := by
  cases hw : wsChar c with
  | false => rfl
  | true =>
    exfalso
    simp only [wsChar, Bool.or_eq_true, decide_eq_true_eq] at hw
    rcases hw with ((((h1 | h1) | h1) | h1) | h1) | h1 <;> subst h1 <;>
      exact absurd h (by decide)

theorem ws_lowerChar (c : Char) : wsChar (lowerChar c) = wsChar c := by
  by_cases hu : 65 ≤ c.toNat && c.toNat ≤ 90
  · have hl : lowerChar c = Char.ofNat (c.toNat + 32) := by rw [lowerChar, if_pos hu]
    simp only [Bool.and_eq_true, decide_eq_true_eq] at hu
    rw [hl, wsChar_false_of_ge _ (by rw [toNat_ofNat_valid _ (by omega)]; omega),
      wsChar_false_of_ge _ (by omega)]
  · rw [lowerChar, if_neg hu]

theorem ws_symChar (c : Char) : wsChar (symChar c) = wsChar c := by
  by_cases h1 : c = '×'
  · subst h1; decide
  by_cases h2 : c = '÷'
  · subst h2; decide
  by_cases h3 : c = '（'
  · subst h3; decide
  by_cases h4 : c = '）'
  · subst h4; decide
  by_cases h5 : c = '，'
  · subst h5; decide
  by_cases h6 : c = '。'
  · subst h6; decide
  have : symChar c = c := by simp [symChar, h1, h2, h3, h4, h5, h6]
  rw [this]

/-! ## Whitespace-collapse lemmas (for C6) -/

theorem intercalate_sp_single (w : List Char) : List.intercalate [' '] [w] = w := by
  simp [List.intercalate]

theorem intercalate_sp_cons2 (w v : List Char) (ws : List (List Char)) :
    List.intercalate [' '] (w :: v :: ws) = w ++ ' ' :: List.intercalate [' '] (v :: ws) := by
  simp [List.intercalate, List.intersperse]

theorem map_intercalate_sp (σ : Char → Char) (hsp : σ ' ' = ' ') :
    ∀ ws : List (List Char),
    List.map σ (List.intercalate [' '] ws) = List.intercalate [' '] (ws.map (List.map σ)) := by
  intro ws
  induction ws with
  | nil => simp [List.intercalate]
  | cons w ws ih =>
    cases ws with
    | nil => simp [List.intercalate]
    | cons v ws2 =>
      rw [intercalate_sp_cons2, List.map_append, List.map_cons, hsp, ih]
      rw [show List.map (List.map σ) (w :: v :: ws2) =
        List.map σ w :: List.map σ v :: List.map (List.map σ) ws2 from rfl]
      rw [intercalate_sp_cons2]
      rfl

theorem wordsAux_map (σ : Char → Char) (hws : ∀ c, wsChar (σ c) = wsChar c) :
    ∀ (l acc : List Char),
    wordsAux (l.map σ) (acc.map σ) = (wordsAux l acc).map (List.map σ) := by
  intro l
  induction l with
  | nil =>
    intro acc
    cases acc with
    | nil => rfl
    | cons a as => simp [wordsAux, List.map_reverse]
  | cons c cs ih =>
    intro acc
    simp only [List.map_cons, wordsAux, hws c]
    by_cases hc : wsChar c = true
    · rw [if_pos hc, if_pos hc]
      cases acc with
      | nil => simpa using ih []
      | cons a as =>
        simp only [List.map_cons, List.isEmpty_cons, Bool.false_eq_true, if_false,
          List.map_reverse]
        have := ih []
        simp only [List.map_nil] at this
        rw [this]
    · rw [if_neg hc, if_neg hc]
      have := ih (c :: acc)
      simpa using this

theorem words_map (σ : Char → Char) (hws : ∀ c, wsChar (σ c) = wsChar c)
    (l : List Char) : words (l.map σ) = (words l).map (List.map σ) := by
  have := wordsAux_map σ hws l []
  simpa [words] using this

theorem collapseWs_map (σ : Char → Char) (hws : ∀ c, wsChar (σ c) = wsChar c)
    (hsp : σ ' ' = ' ') (l : List Char) :
    collapseWsL (l.map σ) = (collapseWsL l).map σ := by
  unfold collapseWsL
  rw [words_map σ hws, ← map_intercalate_sp σ hsp]

theorem wordsAux_wf : ∀ (l acc : List Char), (∀ c ∈ acc, wsChar c = false) →
    ∀ w ∈ wordsAux l acc, w ≠ [] ∧ ∀ c ∈ w, wsChar c = false := by
  intro l
  induction l with
  | nil =>
    intro acc hacc w hw
    cases acc with
    | nil => simp [wordsAux] at hw
    | cons a as =>
      simp only [wordsAux, List.isEmpty_cons, Bool.false_eq_true, if_false,
        List.mem_singleton] at hw
      subst hw
      refine ⟨by simp, ?_⟩
      intro c hc
      rw [List.mem_reverse] at hc
      exact hacc c hc
  | cons c cs ih =>
    intro acc hacc w hw
    simp only [wordsAux] at hw
    by_cases hc : wsChar c = true
    · rw [if_pos hc] at hw
      cases acc with
      | nil =>
        simp only [List.isEmpty_nil, if_true] at hw
        exact ih [] (by simp) w hw
      | cons a as =>
        simp only [List.isEmpty_cons, Bool.false_eq_true, if_false, List.mem_cons] at hw
        rcases hw with hw | hw
        · subst hw
          refine ⟨by simp, ?_⟩
          intro x hx
          rw [List.mem_reverse] at hx
          exact hacc x hx
        · exact ih [] (by simp) w hw
    · rw [if_neg hc] at hw
      refine ih (c :: acc) ?_ w hw
      intro x hx
      rcases List.mem_cons.mp hx with hx | hx
      · subst hx
        simpa using hc
      · exact hacc x hx

theorem words_wf (l : List Char) :
    ∀ w ∈ words l, w ≠ [] ∧ ∀ c ∈ w, wsChar c = false :=
  wordsAux_wf l [] (by simp)

theorem wordsAux_word_append : ∀ (w acc rest : List Char),
    (∀ c ∈ w, wsChar c = false) →
    wordsAux (w ++ rest) acc = wordsAux rest (w.reverse ++ acc) := by
  intro w
  induction w with
  | nil => intro acc rest _; simp
  | cons c cs ih =>
    intro acc rest h
    show wordsAux (c :: (cs ++ rest)) acc = _
    simp only [wordsAux]
    rw [if_neg (by simp [h c (by simp)])]
    rw [ih (c :: acc) rest (fun x hx => h x (by simp [hx]))]
    congr 1
    simp

theorem words_intercalate : ∀ ws : List (List Char),
    (∀ w ∈ ws, w ≠ [] ∧ ∀ c ∈ w, wsChar c = false) →
    words (List.intercalate [' '] ws) = ws := by
  intro ws
  induction ws with
  | nil => intro _; simp [List.intercalate, words, wordsAux]
  | cons w ws ih =>
    intro h
    have hw := h w (by simp)
    cases ws with
    | nil =>
      rw [intercalate_sp_single]
      unfold words
      have := wordsAux_word_append w [] [] hw.2
      simp only [List.append_nil] at this
      rw [this]
      simp [wordsAux, hw.1]
    | cons v ws2 =>
      rw [intercalate_sp_cons2]
      unfold words
      rw [wordsAux_word_append w [] (' ' :: List.intercalate [' '] (v :: ws2)) hw.2]
      simp only [wordsAux, List.append_nil]
      rw [if_pos (by decide)]
      rw [if_neg (by simp [hw.1])]
      rw [List.reverse_reverse]
      have := ih (fun x hx => h x (by simp [hx]))
      unfold words at this
      rw [this]

theorem collapseWs_idem (l : List Char) :
    collapseWsL (collapseWsL l) = collapseWsL l := by
  unfold collapseWsL
  rw [words_intercalate (words l) (words_wf l)]

theorem collapseWs_no_ws (l : List Char) (h : ∀ c ∈ l, wsChar c = false)
    (h0 : l ≠ []) : collapseWsL l = l := by
  have h1 : wordsAux l [] = [l] := by
    have h2 := wordsAux_word_append l [] [] h
    simp only [List.append_nil] at h2
    rw [h2]
    simp [wordsAux, h0]
  unfold collapseWsL words
  rw [h1, intercalate_sp_single]

/-! ## C6 -/

theorem renderFloat_ne_nil (q : ℚ) : renderFloat q ≠ [] := by
  unfold renderFloat
  by_cases hden : q.den = 1
  · rw [if_pos hden]
    unfold intStr
    by_cases h : q.num < 0
    · rw [if_pos h]; simp
    · rw [if_neg h]; exact natStr_ne_nil _
  · rw [if_neg hden]
    simp only
    by_cases hm0 : roundHalfEven5 q = 0
    · rw [if_pos hm0]
      by_cases hq : q.num < 0
      · rw [if_pos hq]; simp
      · rw [if_neg hq]; simp
    · rw [if_neg hm0]
      by_cases hdvd : (roundHalfEven5 q).natAbs % 100000 = 0
      · rw [if_pos hdvd]
        simp only [ne_eq, List.append_eq_nil, not_and]
        intro _
        exact natStr_ne_nil _
      · rw [if_neg hdvd]
        by_cases hlt : (roundHalfEven5 q).natAbs < 10
        · rw [if_pos hlt]; simp
        · rw [if_neg hlt]; simp

theorem lowerL_fix_of_render (l : List Char)
    (h : ∀ c ∈ l, c = '-' ∨ c = '.' ∨ c = 'e' ∨ digitChar c = true) :
    lowerL l = l :=
  map_id_of_fix (fun c hc => by
    rcases h c hc with h | h | h | h
    · subst h; decide
    · subst h; decide
    · subst h; decide
    · refine lowerChar_eq_self_of c (Or.inl ?_)
      have := (digitChar_iff c).mp h
      omega)

theorem symL_fix_of_render (l : List Char)
    (h : ∀ c ∈ l, c = '-' ∨ c = '.' ∨ c = 'e' ∨ digitChar c = true) :
    l.map symChar = l :=
  map_id_of_fix (fun c hc => by
    rcases h c hc with h | h | h | h
    · subst h; decide
    · subst h; decide
    · subst h; decide
    · refine symChar_eq_self_of_le c ?_
      have := (digitChar_iff c).mp h
      omega)

theorem lowerL_normalizeL (l : List Char) :
    lowerL (normalizeL l) = normalizeL l := by
  unfold normalizeL
  by_cases h0 : l.isEmpty
  · rw [if_pos h0]; rfl
  · rw [if_neg h0]
    have h1 : lowerL (collapseWsL (lowerL (removeBanned l))) =
        collapseWsL (lowerL (removeBanned l)) := by
      show List.map lowerChar (collapseWsL (List.map lowerChar (removeBanned l))) = _
      rw [← collapseWs_map lowerChar ws_lowerChar (by decide)]
      congr 1
      rw [List.map_map]
      exact List.map_congr_left (fun c _ => lowerChar_idem c)
    have hz : lowerL ((collapseWsL (lowerL (removeBanned l))).map symChar) =
        (collapseWsL (lowerL (removeBanned l))).map symChar := by
      show List.map lowerChar (List.map symChar _) = _
      rw [List.map_map]
      have hcomp : List.map (lowerChar ∘ symChar) (collapseWsL (lowerL (removeBanned l))) =
          List.map (symChar ∘ lowerChar) (collapseWsL (lowerL (removeBanned l))) :=
        List.map_congr_left (fun c _ => lower_sym_comm c)
      rw [hcomp, ← List.map_map]
      show List.map symChar (lowerL _) = _
      rw [h1]
    unfold normNumeric
    by_cases hf : numFullmatch ((collapseWsL (lowerL (removeBanned l))).map symChar) = true
    · rw [if_pos hf]
      cases hq : pyFloatOf ((collapseWsL (lowerL (removeBanned l))).map symChar) with
      | none => exact hz
      | some q => exact lowerL_fix_of_render _ (renderFloat_chars q)
    · rw [if_neg hf]
      exact hz

theorem symM_normalizeL (l : List Char) :
    (normalizeL l).map symChar = normalizeL l := by
  unfold normalizeL
  by_cases h0 : l.isEmpty
  · rw [if_pos h0]; rfl
  · rw [if_neg h0]
    have hz : ((collapseWsL (lowerL (removeBanned l))).map symChar).map symChar =
        (collapseWsL (lowerL (removeBanned l))).map symChar := by
      rw [List.map_map]
      exact List.map_congr_left (fun c _ => symChar_idem c)
    unfold normNumeric
    by_cases hf : numFullmatch ((collapseWsL (lowerL (removeBanned l))).map symChar) = true
    · rw [if_pos hf]
      cases hq : pyFloatOf ((collapseWsL (lowerL (removeBanned l))).map symChar) with
      | none => exact hz
      | some q => exact symL_fix_of_render _ (renderFloat_chars q)
    · rw [if_neg hf]
      exact hz

theorem collapseWs_normalizeL (l : List Char) :
    collapseWsL (normalizeL l) = normalizeL l := by
  unfold normalizeL
  by_cases h0 : l.isEmpty
  · rw [if_pos h0]; rfl
  · rw [if_neg h0]
    have hz : collapseWsL ((collapseWsL (lowerL (removeBanned l))).map symChar) =
        (collapseWsL (lowerL (removeBanned l))).map symChar := by
      rw [collapseWs_map symChar ws_symChar (by decide)]
      rw [collapseWs_idem]
    unfold normNumeric
    by_cases hf : numFullmatch ((collapseWsL (lowerL (removeBanned l))).map symChar) = true
    · rw [if_pos hf]
      cases hq : pyFloatOf ((collapseWsL (lowerL (removeBanned l))).map symChar) with
      | none => exact hz
      | some q =>
        exact collapseWs_no_ws _
          (fun c hc => no_ws_of_render_chars (renderFloat_chars q c hc))
          (renderFloat_ne_nil q)
    · rw [if_neg hf]
      exact hz

/-- C6 counterexample: normalization is not idempotent.  `normalize("（")`
is `"("` (the full-width parenthesis is replaced only after the
bracket-stripping step has run), and a second pass strips the `"("` to
`""`; `normalize("-0.000004")` is `"-0"` (the render of `str(-0.0)`),
and a second pass re-parses `"-0"` as the integer 0 and renders `"0"`. -/
theorem C6_counterexample :
    normalize_answer (normalize_answer "（") ≠ normalize_answer "（" ∧
    normalize_answer (normalize_answer "-0.000004") ≠ normalize_answer "-0.000004" := by
  constructor <;> decide

/-- C6 amended: normalization is idempotent on exactly the inputs whose
normalized form is stable under the two re-entrant steps — it contains
none of the stripped bracket/quote characters, and the numeric
re-formatting step leaves it unchanged.  (Both conditions hold for all
ordinary normalized outputs; the counterexamples violate one each.) -/
theorem C6_idempotent_on_stable (x : String)
    (h1 : ∀ c ∈ (normalize_answer x).data, bannedChar c = false)
    (h2 : normNumeric (normalize_answer x).data = (normalize_answer x).data) :
    normalize_answer (normalize_answer x) = normalize_answer x := by
  have hy : (normalize_answer x).data = normalizeL x.data := rfl
  show (⟨normalizeL (normalize_answer x).data⟩ : String) = normalize_answer x
  have key : normalizeL (normalize_answer x).data = (normalize_answer x).data := by
    by_cases h0 : (normalize_answer x).data.isEmpty
    · unfold normalizeL
      rw [if_pos h0]
      exact (List.isEmpty_iff.mp h0).symm
    · unfold normalizeL
      rw [if_neg h0]
      have hrb : removeBanned (normalize_answer x).data = (normalize_answer x).data := by
        unfold removeBanned
        rw [List.filter_eq_self.mpr]
        intro a ha
        simp [h1 a ha]
      rw [hrb]
      have hlo : lowerL (normalize_answer x).data = (normalize_answer x).data := by
        rw [hy]
        exact lowerL_normalizeL x.data
      rw [hlo]
      have hco : collapseWsL (normalize_answer x).data = (normalize_answer x).data := by
        rw [hy]
        exact collapseWs_normalizeL x.data
      rw [hco]
      have hsy : (normalize_answer x).data.map symChar = (normalize_answer x).data := by
        rw [hy]
        exact symM_normalizeL x.data
      rw [hsy]
      exact h2
  rw [key]

theorem C6_idempotent_on_stable_witness :
    normalize_answer (normalize_answer "The  ANSWER  is 42 apples.") =
      normalize_answer "The  ANSWER  is 42 apples." :=
  C6_idempotent_on_stable "The  ANSWER  is 42 apples." (by decide) (by decide)
